import Mathlib

set_option maxHeartbeats 1600000

/-!
Verification development for the tiptap-table-plus merge and row-pagination
engines.  The TypeScript sources are shallowly embedded: ProseMirror documents
are modelled structurally (tables, rows, cells, blocks, inline nodes) and the
position-based ProseMirror transactions of the source are rendered as
index-based structural updates.  The extension never mutates the ProseMirror
colspan and rowspan attributes (it keeps its own rmColspan and rmRowspan
attributes), so prosemirror-tables TableMap sees every cell as occupying a
single grid slot; the grid map therefore reduces to plain row and cell
indices, which is how cells are addressed below.  Cell blocks are modelled as
flat sequences of inline nodes, and documents are modelled without
tableRowGroup wrappers (on such documents the group bookkeeping of the cleanup
reconciler is inert).  Geometry measurements (overflow, pixel heights, the
split point computed from the DOM) are parameters of the embedded operations,
mirroring the Geometry Provider interface of the spec.
-/

namespace TablePlus

/-- An inline node inside a textblock: a text node (its characters), a
hardBreak, or some other leaf inline node (image, mention, ...) identified by
its type name. -/
inductive Inline where
  | text (s : List Char)
  | hardBreak
  | leaf (name : String)
deriving DecidableEq, Repr

/-- A content block of a cell: type name, whether it is a textblock, and its
inline content. -/
structure Block where
  name : String
  isTextblock : Bool
  inlines : List Inline
deriving DecidableEq, Repr

/-- The rm* attributes of a table cell (TableCellPlus / TableHeaderPlus). -/
structure CellAttrs where
  rmCellId : Option String
  rmMergeOrigin : Bool
  rmMergedTo : Option String
  rmHideMode : Option String
  rmColspan : Nat
  rmRowspan : Nat
deriving DecidableEq, Repr

structure Cell where
  attrs : CellAttrs
  blocks : List Block
deriving DecidableEq, Repr

/-- A table row with its chain attributes (TableRowPlus). -/
structure Row where
  rmRowId : Option String
  rmLinkedPrev : Option String
  rmLinkedNext : Option String
  cells : List Cell
deriving DecidableEq, Repr

structure Table where
  locked : Bool
  rows : List Row
deriving DecidableEq, Repr

/-- A document is a sequence of tables (non-table content is irrelevant to
every claim and is omitted). -/
abbrev Doc := List Table

/-! ### JavaScript string helpers -/

/-- JS truthiness of a nullable string attribute: null and the empty string
are falsy. -/
def strTruthy : Option String → Bool
  | none => false
  | some s => s ≠ ""

/-- The JavaScript String.prototype.trim: strip whitespace from both ends
(modelled over the character list underlying the string). -/
def strTrim (s : String) : String :=
  String.mk (((s.data.dropWhile Char.isWhitespace).reverse.dropWhile
    Char.isWhitespace).reverse)

/-- asStringOrNull from TableRowOverflow: String(v).trim(), empty becomes
null. -/
def asStringOrNull : Option String → Option String
  | none => none
  | some s => if strTrim s = "" then none else some (strTrim s)

/-! ### Content helpers -/

def Inline.textOf : Inline → List Char
  | .text s => s
  | _ => []

/-- ProseMirror textContent of a block: concatenation of its text nodes. -/
def Block.textContent (b : Block) : List Char :=
  (b.inlines.map Inline.textOf).flatten

/-- ProseMirror textContent of a cell. -/
def cellTextContent (c : Cell) : List Char :=
  (c.blocks.map Block.textContent).flatten

/-- The JavaScript test s.trim() === "" on a character sequence: every
character is whitespace. -/
def trimEmpty (cs : List Char) : Bool :=
  cs.all Char.isWhitespace

/-- ProseMirror content size of a block content list (text length, leaves
count 1). -/
def Inline.size : Inline → Nat
  | .text s => s.length
  | _ => 1

def inlinesSize (l : List Inline) : Nat :=
  (l.map Inline.size).sum

/-- The single empty paragraph produced by paragraph.createAndFill() /
paragraph.create(). -/
def emptyParagraph : Block :=
  { name := "paragraph", isTextblock := true, inlines := [] }

/-! ### Indexed list helpers (structural stand-ins for position-keyed
transaction updates) -/

def mapWithIndexFrom (f : Nat → α → α) : Nat → List α → List α
  | _, [] => []
  | i, a :: l => f i a :: mapWithIndexFrom f (i + 1) l

def mapWithIndex (f : Nat → α → α) (l : List α) : List α :=
  mapWithIndexFrom f 0 l

/-- Remove the element at an index (the deleteRange of one child node). -/
def removeNth : List α → Nat → List α
  | [], _ => []
  | _ :: l, 0 => l
  | a :: l, n + 1 => a :: removeNth l n

/-- Insert an element at an index. -/
def insertNth (n : Nat) (a : α) (l : List α) : List α :=
  l.take n ++ a :: l.drop n

/-! ### Cell lookup: the grid map.

The extension keeps its own rmColspan/rmRowspan attributes and never touches
the ProseMirror colspan/rowspan attributes, so TableMap assigns every cell its
own grid slot: slot (r, c) is occupied by the c-th cell of the r-th row. -/

def cellAt (t : Table) (r c : Nat) : Option Cell :=
  match t.rows[r]? with
  | some row => row.cells[c]?
  | none => none

/-- TableMap height: the number of rows. -/
def numRows (t : Table) : Nat := t.rows.length

/-- TableMap width (tables are rectangular; with all PM spans equal to 1 this
is the length of the first row). -/
def tableWidth (t : Table) : Nat :=
  match t.rows.head? with
  | some row => row.cells.length
  | none => 0

/-- All cells of a table with their grid coordinates, in document order
(the traversal order of tableNode.descendants). -/
def allCellsIndexed (t : Table) : List ((Nat × Nat) × Cell) :=
  t.rows.enum.flatMap fun rp => rp.2.cells.enum.map fun cp => ((rp.1, cp.1), cp.2)

/-! ### TableMergePlus.ts embedding -/

/-- A selection rectangle, as produced by TableMap.rectBetween: rows
[top, bottom), columns [left, right). -/
structure Rect where
  top : Nat
  left : Nat
  bottom : Nat
  right : Nat
deriving DecidableEq, Repr

/-- Row-major enumeration of the grid coordinates of a rectangle (the r/c
double loop of mergeInternal). -/
def rectCoords (rect : Rect) : List (Nat × Nat) :=
  (List.range (rect.bottom - rect.top)).flatMap fun i =>
    (List.range (rect.right - rect.left)).map fun j => (rect.top + i, rect.left + j)

def inRect (rect : Rect) (r c : Nat) : Bool :=
  decide (rect.top ≤ r) && decide (r < rect.bottom) &&
    decide (rect.left ≤ c) && decide (c < rect.right)

/-- isVisuallyEmptyCell from TableMergePlus.ts: no non-whitespace text, and
the descendants scan finds no leaf other than a hardBreak.  Text nodes are
leaves, so a whitespace-only text node already makes the cell non-empty. -/
def isVisuallyEmptyCell (c : Cell) : Bool :=
  trimEmpty (cellTextContent c) &&
    c.blocks.all fun b => b.inlines.all fun i =>
      match i with
      | .hardBreak => true
      | .text _ => false
      | .leaf _ => false

/-- meaningfulBlocksFromCell from TableMergePlus.ts: drop blocks that are
paragraphs with no content and whitespace-only text. -/
def meaningfulBlocksFromCell (c : Cell) : List Block :=
  c.blocks.filter fun b =>
    !(b.name == "paragraph" && trimEmpty (Block.textContent b) && b.inlines.isEmpty)

/-- emptyCellContent from TableMergePlus.ts: one filled paragraph; throws if
the schema has no paragraph node. -/
def emptyCellContent (hasParagraph : Bool) : Except Unit (List Block) :=
  if hasParagraph then .ok [emptyParagraph] else .error ()

/-- The attribute rewrite applied to a covered cell by mergeInternal. -/
def coveredCellOf (originId : String) (topRow : Nat) (r : Nat) (emptyBlocks : List Block)
    (old : Cell) : Cell :=
  { attrs := { old.attrs with
      rmMergeOrigin := false
      rmMergedTo := some originId
      rmHideMode := some (if r = topRow then "none" else "hidden")
      rmColspan := 1
      rmRowspan := 1 }
    blocks := emptyBlocks }

/-- mergeInternal from TableMergePlus.ts.  The selection rectangle (from
TableMap.rectBetween on the anchor/head cells) is taken as input.  Result:
ok none models "return false, nothing dispatched"; ok (some t) models "the
rewritten table was dispatched, return true"; error models an exception
escaping the command. -/
def mergeInternal (hasParagraph : Bool) (t : Table) (rect : Rect) :
    Except Unit (Option Table) :=
  let width := rect.right - rect.left
  let height := rect.bottom - rect.top
  if width = 1 ∧ height = 1 then .ok none
  else
    match (rectCoords rect).mapM (fun rc => (cellAt t rc.1 rc.2).map fun cl => (rc, cl)) with
    | none => .ok none
    | some cells =>
      if cells.any (fun x => strTruthy x.2.attrs.rmMergedTo) then .ok none
      else if cells.any (fun x => x.2.attrs.rmMergeOrigin &&
          (decide (1 < x.2.attrs.rmRowspan) || decide (1 < x.2.attrs.rmColspan))) then .ok none
      else
        match cells.find? (fun x => x.1.1 == rect.top && x.1.2 == rect.left) with
        | none => .ok none
        | some origin =>
          if !(strTruthy origin.2.attrs.rmCellId) then .ok none
          else
            let originId := origin.2.attrs.rmCellId.getD ""
            let originBlocks :=
              if !(isVisuallyEmptyCell origin.2) then meaningfulBlocksFromCell origin.2 else []
            let others := cells.filter fun x =>
              !(x.1.1 == rect.top && x.1.2 == rect.left) && !(isVisuallyEmptyCell x.2)
            let mergedBlocks0 := originBlocks ++ others.flatMap fun x => meaningfulBlocksFromCell x.2
            let mergedBlocksE : Except Unit (List Block) :=
              if mergedBlocks0.isEmpty then
                (if hasParagraph then .ok [emptyParagraph] else .error ())
              else .ok mergedBlocks0
            match mergedBlocksE with
            | .error e => .error e
            | .ok mergedBlocks =>
              match emptyCellContent hasParagraph with
              | .error e => .error e
              | .ok emptyBlocks =>
                let mergedOrigin : Cell :=
                  { attrs := { origin.2.attrs with
                      rmMergeOrigin := true
                      rmMergedTo := none
                      rmHideMode := none
                      rmColspan := width
                      rmRowspan := height }
                    blocks := mergedBlocks }
                .ok (some { t with rows := mapWithIndex (fun r row =>
                  { row with cells := mapWithIndex (fun c cl =>
                      if inRect rect r c then
                        (if r = rect.top ∧ c = rect.left then mergedOrigin
                         else coveredCellOf originId rect.top r emptyBlocks cl)
                      else cl) row.cells }) t.rows })

/-- The origin-id resolution applied by unmergeInternal to the anchor (and
then the head) cell: a covered cell yields its rmMergedTo, a spanning origin
yields its rmCellId. -/
def pickOriginId (c : Cell) : Option String :=
  if strTruthy c.attrs.rmMergedTo then c.attrs.rmMergedTo
  else if c.attrs.rmMergeOrigin &&
      (decide (1 < c.attrs.rmRowspan) || decide (1 < c.attrs.rmColspan)) then c.attrs.rmCellId
  else none

/-- The tableNode.descendants scan of unmergeInternal locating the origin
cell: the first cell whose rmCellId equals the target and which is flagged as
origin or carries a span. -/
def findOriginLoc (t : Table) (originId : String) : Option ((Nat × Nat) × Cell) :=
  (allCellsIndexed t).find? fun x =>
    x.2.attrs.rmCellId == some originId &&
      (x.2.attrs.rmMergeOrigin ||
        (decide (1 < x.2.attrs.rmRowspan) || decide (1 < x.2.attrs.rmColspan)))

/-- The attribute reset applied by unmergeInternal to the origin and to each
covered cell. -/
def unmergeResetAttrs (a : CellAttrs) : CellAttrs :=
  { a with
    rmMergeOrigin := false
    rmMergedTo := none
    rmHideMode := none
    rmColspan := 1
    rmRowspan := 1 }

/-- unmergeInternal from TableMergePlus.ts, with the anchor and head cells
given by their grid coordinates. -/
def unmergeInternal (hasParagraph : Bool) (t : Table) (anchor head : Nat × Nat) :
    Except Unit (Option Table) :=
  match cellAt t anchor.1 anchor.2 with
  | none => .ok none
  | some anchorCell =>
    let o1 := pickOriginId anchorCell
    let o2 := if strTruthy o1 then o1
      else match cellAt t head.1 head.2 with
        | some headCell => pickOriginId headCell
        | none => none
    if !(strTruthy o2) then .ok none
    else
      let originId := o2.getD ""
      match findOriginLoc t originId with
      | none => .ok none
      | some ((orow, ocol), onode) =>
        let spanW := onode.attrs.rmColspan
        let spanH := onode.attrs.rmRowspan
        if spanW ≤ 1 ∧ spanH ≤ 1 then .ok none
        else
          let bottom := min (orow + spanH) (numRows t)
          let right := min (ocol + spanW) (tableWidth t)
          match emptyCellContent hasParagraph with
          | .error e => .error e
          | .ok emptyBlocks =>
            let inUR : Nat → Nat → Bool := fun r c =>
              decide (orow ≤ r) && decide (r < bottom) &&
                decide (ocol ≤ c) && decide (c < right)
            let shouldReset : Nat → Nat → Cell → Bool := fun r c n =>
              (r == orow && c == ocol) || n.attrs.rmMergedTo == some originId
            if !((allCellsIndexed t).any fun x =>
                inUR x.1.1 x.1.2 && shouldReset x.1.1 x.1.2 x.2) then .ok none
            else
              .ok (some { t with rows := mapWithIndex (fun r row =>
                { row with cells := mapWithIndex (fun c n =>
                    if inUR r c && shouldReset r c n then
                      (if r = orow ∧ c = ocol then
                        { attrs := unmergeResetAttrs n.attrs, blocks := n.blocks }
                       else
                        { attrs := unmergeResetAttrs n.attrs, blocks := emptyBlocks })
                    else n) row.cells }) t.rows })

/-- toggleTableMerge from TableMergePlus.ts: unmerge first; if it reports
false, merge. -/
def toggleTableMerge (hasParagraph : Bool) (t : Table) (anchor head : Nat × Nat)
    (rect : Rect) : Except Unit (Option Table) :=
  match unmergeInternal hasParagraph t anchor head with
  | .error e => .error e
  | .ok (some t') => .ok (some t')
  | .ok none => mergeInternal hasParagraph t rect

/-! ### Document-level helpers for the row-overflow engine (part_000) -/

/-- All rows of the document, in document order. -/
def allRows (d : Doc) : List Row :=
  d.flatMap Table.rows

/-- All rows with their (table index, row index) location, in document
order. -/
def rowsIndexed (d : Doc) : List ((Nat × Nat) × Row) :=
  d.enum.flatMap fun tp => tp.2.rows.enum.map fun rp => ((tp.1, rp.1), rp.2)

/-- findRowPosById from part_000: the first row in document order whose raw
rmRowId attribute equals the given id. -/
def findRowLocById (d : Doc) (id : String) : Option ((Nat × Nat) × Row) :=
  (rowsIndexed d).find? fun x => x.2.rmRowId == some id

def getRowAt (d : Doc) (loc : Nat × Nat) : Option Row :=
  match d[loc.1]? with
  | some tb => tb.rows[loc.2]?
  | none => none

def updateNth (l : List α) (n : Nat) (f : α → α) : List α :=
  match l, n with
  | [], _ => []
  | a :: l, 0 => f a :: l
  | a :: l, n + 1 => a :: updateNth l n f

def updateRowAt (d : Doc) (loc : Nat × Nat) (f : Row → Row) : Doc :=
  updateNth d loc.1 fun tb => { tb with rows := updateNth tb.rows loc.2 f }

def updateCellAt (d : Doc) (loc : Nat × Nat) (ci : Nat) (f : Cell → Cell) : Doc :=
  updateRowAt d loc fun r => { r with cells := updateNth r.cells ci f }

def deleteRowAt (d : Doc) (loc : Nat × Nat) : Doc :=
  updateNth d loc.1 fun tb => { tb with rows := removeNth tb.rows loc.2 }

def insertRowAt (d : Doc) (ti ri : Nat) (row : Row) : Doc :=
  updateNth d ti fun tb => { tb with rows := insertNth ri row tb.rows }

/-- Document-order (position) comparison of two row locations. -/
def locLt (a b : Nat × Nat) : Bool :=
  a.1 < b.1 || (a.1 == b.1 && a.2 < b.2)

/-! ### The row commands of TableMergePlus.ts (deleteRowPlus,
insertRowAfterPlus) -/

/-- A cell update at one grid coordinate of a table. -/
def updateTableCellAt (t : Table) (r c : Nat) (f : Cell → Cell) : Table :=
  { t with rows := updateNth t.rows r fun row => { row with cells := updateNth row.cells c f } }

/-- The attributes of a cell created by the standard addRowAfter
(createAndFill with the node type's defaults). -/
def freshCellAttrs : CellAttrs :=
  { rmCellId := none
    rmMergeOrigin := false
    rmMergedTo := none
    rmHideMode := none
    rmColspan := 1
    rmRowspan := 1 }

/-- The row inserted by the standard addRowAfter: one freshly filled cell per
column of the reference row. -/
def freshRowAfter (rowNode : Row) : Row :=
  { rmRowId := none
    rmLinkedPrev := none
    rmLinkedNext := none
    cells := rowNode.cells.map fun _ => { attrs := freshCellAttrs, blocks := [emptyParagraph] } }

/-- The per-row scan of deleteRowPlus: every merge intersecting the row, as
(column, origin id), deduplicated by origin id via the seen set. -/
def deleteRowTargetsAux (t : Table) (rowIndex : Nat) :
    List String × List (Nat × String) :=
  (List.range (tableWidth t)).foldl (fun acc c =>
    match cellAt t rowIndex c with
    | none => acc
    | some n =>
      let a := n.attrs
      if strTruthy a.rmMergedTo && !(acc.1.contains (a.rmMergedTo.getD "")) then
        (acc.1 ++ [a.rmMergedTo.getD ""], acc.2 ++ [(c, a.rmMergedTo.getD "")])
      else if a.rmMergeOrigin &&
          (decide (1 < a.rmRowspan) || decide (1 < a.rmColspan)) then
        (if strTruthy a.rmCellId && !(acc.1.contains (a.rmCellId.getD "")) then
          (acc.1 ++ [a.rmCellId.getD ""], acc.2 ++ [(c, a.rmCellId.getD "")])
         else acc)
      else acc) ([], [])

def deleteRowTargets (t : Table) (rowIndex : Nat) : List (Nat × String) :=
  (deleteRowTargetsAux t rowIndex).2

/-- The dispatch loop of deleteRowPlus: select each target cell in turn and
run unmergeTableAtSelection on the current state, ignoring its boolean. -/
def unmergeTargetsLoop (hasParagraph : Bool) (rowIndex : Nat) :
    Table → List (Nat × String) → Except Unit Table
  | t, [] => .ok t
  | t, (c, _) :: rest =>
    match unmergeInternal hasParagraph t (rowIndex, c) (rowIndex, c) with
    | .error e => .error e
    | .ok (some t2) => unmergeTargetsLoop hasParagraph rowIndex t2 rest
    | .ok none => unmergeTargetsLoop hasParagraph rowIndex t rest

/-- deleteRowPlus from TableMergePlus.ts: unmerge every merge intersecting
the selected row, then delete the row. -/
def deleteRowPlus (hasParagraph : Bool) (t : Table) (rowIndex : Nat) :
    Except Unit (Option Table) :=
  match t.rows[rowIndex]? with
  | none => .ok none
  | some _ =>
    match unmergeTargetsLoop hasParagraph rowIndex t (deleteRowTargets t rowIndex) with
    | .error e => .error e
    | .ok t1 => .ok (some { t1 with rows := removeNth t1.rows rowIndex })

/-- A merge whose vertical span must be extended across a freshly inserted
row. -/
structure MergeInfo where
  originId : String
  originRow : Nat
  originCol : Nat
  colspan : Nat
  rowspan : Nat
deriving DecidableEq, Repr

/-- The strict origin lookup of insertRowAfterPlus: the first cell carrying
the id together with the rmMergeOrigin flag. -/
def findOriginCellStrict (t : Table) (originId : String) : Option ((Nat × Nat) × Cell) :=
  (allCellsIndexed t).find? fun x =>
    x.2.attrs.rmCellId == some originId && x.2.attrs.rmMergeOrigin

/-- The current-row scan of insertRowAfterPlus: origins in the row spanning
below it, and covered cells whose origin spans past it. -/
def mergesToExtendRow (t : Table) (currentRowIndex : Nat) :
    List String × List MergeInfo :=
  (List.range (tableWidth t)).foldl (fun acc c =>
    match cellAt t currentRowIndex c with
    | none => acc
    | some node =>
      let attrs := node.attrs
      if attrs.rmMergeOrigin && decide (1 < attrs.rmRowspan) then
        (if strTruthy attrs.rmCellId && !(acc.1.contains (attrs.rmCellId.getD "")) then
          (acc.1 ++ [attrs.rmCellId.getD ""],
           acc.2 ++ [{ originId := attrs.rmCellId.getD ""
                       originRow := currentRowIndex
                       originCol := c
                       colspan := attrs.rmColspan
                       rowspan := attrs.rmRowspan }])
         else acc)
      else if strTruthy attrs.rmMergedTo then
        (let originId := attrs.rmMergedTo.getD ""
         if !(acc.1.contains originId) then
           match findOriginCellStrict t originId with
           | none => acc
           | some ((orow, ocol), onode) =>
             if currentRowIndex + 1 < orow + onode.attrs.rmRowspan then
               (acc.1 ++ [originId],
                acc.2 ++ [{ originId := originId
                            originRow := orow
                            originCol := ocol
                            colspan := onode.attrs.rmColspan
                            rowspan := onode.attrs.rmRowspan }])
             else acc
         else acc)
      else acc) ([], [])

/-- The above-rows scan of insertRowAfterPlus: origins above the current row
whose span reaches past it. -/
def mergesToExtendAbove (t : Table) (currentRowIndex : Nat)
    (start : List String × List MergeInfo) : List String × List MergeInfo :=
  ((List.range currentRowIndex).flatMap fun r =>
    (List.range (tableWidth t)).map fun c => (r, c)).foldl (fun acc rc =>
    match cellAt t rc.1 rc.2 with
    | none => acc
    | some node =>
      let attrs := node.attrs
      if attrs.rmMergeOrigin then
        (if strTruthy attrs.rmCellId && !(acc.1.contains (attrs.rmCellId.getD "")) then
          (if currentRowIndex + 1 < rc.1 + attrs.rmRowspan then
            (acc.1 ++ [attrs.rmCellId.getD ""],
             acc.2 ++ [{ originId := attrs.rmCellId.getD ""
                         originRow := rc.1
                         originCol := rc.2
                         colspan := attrs.rmColspan
                         rowspan := attrs.rmRowspan }])
           else acc)
         else acc)
      else acc) start

def mergesToExtend (t : Table) (currentRowIndex : Nat) : List MergeInfo :=
  (mergesToExtendAbove t currentRowIndex (mergesToExtendRow t currentRowIndex)).2

/-- The covered cell installed in the fresh row by insertRowAfterPlus. -/
def extendCoveredCell (originId : String) (hide : String) (empty : List Block)
    (old : Cell) : Cell :=
  { attrs := { old.attrs with
      rmMergeOrigin := false
      rmMergedTo := some originId
      rmHideMode := some hide
      rmColspan := 1
      rmRowspan := 1 }
    blocks := empty }

/-- The update collection loop of insertRowAfterPlus, run against the
post-insert document: one rowspan bump per origin, plus a covered cell for
every column of the merge inside the fresh row, deduplicated by position. -/
def extendUpdates (t1 : Table) (newRowIndex : Nat) (empty : List Block) :
    List MergeInfo → List String → List ((Nat × Nat) × Cell) →
      List ((Nat × Nat) × Cell)
  | [], _, ups => ups
  | merge :: rest, updatedOrigins, ups =>
    let step :=
      if updatedOrigins.contains merge.originId then (ups, updatedOrigins)
      else
        match findOriginCellStrict t1 merge.originId with
        | none => (ups, updatedOrigins)
        | some ((orow, ocol), onode) =>
          (ups ++ [((orow, ocol),
             { onode with attrs := { onode.attrs with rmRowspan := merge.rowspan + 1 } })],
           updatedOrigins ++ [merge.originId])
    let cols := (List.range merge.colspan).map fun i => merge.originCol + i
    let ups2 := cols.foldl (fun acc c =>
      if tableWidth t1 ≤ c then acc
      else if acc.any fun u => decide (u.1 = (newRowIndex, c)) then acc
      else
        match cellAt t1 newRowIndex c with
        | none => acc
        | some oldCell =>
          acc ++ [((newRowIndex, c), extendCoveredCell merge.originId
            (if newRowIndex = merge.originRow then "none" else "hidden") empty oldCell)])
      step.1
    extendUpdates t1 newRowIndex empty rest step.2 ups2

/-- insertRowAfterPlus from TableMergePlus.ts: record the merges spanning
past the selected row, insert a standard row after it, then extend every
recorded merge across the fresh row (bumping the origin rowspan and covering
the fresh cells with empty content). -/
def insertRowAfterPlus (hasParagraph : Bool) (t : Table) (currentRowIndex : Nat) :
    Except Unit (Option Table) :=
  match t.rows[currentRowIndex]? with
  | none => .ok none
  | some rowNode =>
    let merges := mergesToExtend t currentRowIndex
    let t1 := { t with rows := insertNth (currentRowIndex + 1) (freshRowAfter rowNode) t.rows }
    if merges.isEmpty then .ok (some t1)
    else
      match emptyCellContent hasParagraph with
      | .error e => .error e
      | .ok empty =>
        let ups := extendUpdates t1 (currentRowIndex + 1) empty merges [] []
        if ups.isEmpty then .ok (some t1)
        else .ok (some (ups.foldl (fun tacc u =>
          updateTableCellAt tacc u.1.1 u.1.2 fun _ => u.2) t1))

/-! ### Emptiness predicates from part_000 -/

/-- isEmptyPlaceholderCell: exactly one child, a textblock with empty
content. -/
def isEmptyPlaceholderCell (c : Cell) : Bool :=
  match c.blocks with
  | [only] => only.isTextblock && only.inlines.isEmpty
  | _ => false

/-- The descendants probe of part_000 looking for an inline node that is not
a text node. -/
def blockHasNonTextInline (b : Block) : Bool :=
  b.inlines.any fun i =>
    match i with
    | .text _ => false
    | _ => true

def allChildrenAreEmptyTextblocks (c : Cell) : Bool :=
  c.blocks.all fun ch =>
    ch.isTextblock && trimEmpty (Block.textContent ch) && !(blockHasNonTextInline ch)

def isCellCompletelyEmpty (c : Cell) : Bool :=
  if c.blocks.isEmpty then true
  else if c.blocks.length == 1 && isEmptyPlaceholderCell c then true
  else trimEmpty (cellTextContent c) && allChildrenAreEmptyTextblocks c

def isRowCompletelyEmpty (r : Row) : Bool :=
  r.cells.all isCellCompletelyEmpty

/-- getFirstMeaningfulBlockIndex: first block that is not a textblock, or has
non-whitespace text, or contains a non-text inline node. -/
def getFirstMeaningfulBlockIndex (c : Cell) : Option Nat :=
  c.blocks.findIdx? fun ch =>
    !ch.isTextblock || !(trimEmpty (Block.textContent ch)) || blockHasNonTextInline ch

/-- buildEmptyLinkedRow from part_000: clone the row cell-for-cell with the
merge attributes reset, each cell filled with one empty paragraph
(createAndFill), and the given chain attributes. -/
def buildEmptyLinkedRow (fromRow : Row) (rid : String) (prev : Option String) : Row :=
  { rmRowId := some rid
    rmLinkedPrev := prev
    rmLinkedNext := none
    cells := fromRow.cells.map fun c =>
      { attrs := { c.attrs with
          rmMergedTo := none
          rmMergeOrigin := false
          rmHideMode := none
          rmRowspan := 1
          rmColspan := 1
          rmCellId := none }
        blocks := [emptyParagraph] } }

/-- ensureRowId from part_000. -/
def ensureRowId (existing : Option String) (fresh : String) : String :=
  match existing with
  | some s => if strTrim s ≠ "" then s else fresh
  | none => fresh

/-! ### The split point (Geometry Provider output) and its application -/

/-- The split point computed by computeSplitPoint from the rendered cell: a
block-boundary split carries the index of the last fully visible block; an
inline split carries the block index and the content offset inside that block
to which the caret probe or the binary search resolved. -/
inductive SplitSpec where
  | blockSplit (lastFullyVisible : Nat)
  | inlineSplit (blockIdx : Nat) (offset : Nat)
deriving DecidableEq, Repr

/-- doc.slice at a content offset inside a textblock: split the inline
sequence at the given content size offset (text characters count their
length, other inline nodes count 1), splitting a text node when the offset
falls inside it. -/
def splitInlinesAt : List Inline → Nat → List Inline × List Inline
  | l, 0 => ([], l)
  | [], _ + 1 => ([], [])
  | Inline.text s :: rest, n + 1 =>
    if n + 1 < s.length then
      ([Inline.text (s.take (n + 1))], Inline.text (s.drop (n + 1)) :: rest)
    else
      let p := splitInlinesAt rest (n + 1 - s.length)
      (Inline.text s :: p.1, p.2)
  | i :: rest, n + 1 =>
    let p := splitInlinesAt rest n
    (i :: p.1, p.2)

/-- The content manipulation of maybePaginateActiveCell / paginateCellAtContext
once the split point is known: returns the blocks remaining in the origin
cell and the blocks moved to the continuation cell, or none when the step
aborts (cut at or past the cell end, no textblock at the inline cut, empty
tail). -/
def applySplit (cell : Cell) (sp : SplitSpec) : Option (List Block × List Block) :=
  match sp with
  | .blockSplit lastFullyVisible =>
    let idx := min lastFullyVisible (cell.blocks.length - 1)
    let cut := idx + 1
    if cell.blocks.length ≤ cut then none
    else some (cell.blocks.take cut, cell.blocks.drop cut)
  | .inlineSplit blockIdx offset =>
    match cell.blocks[blockIdx]? with
    | none => none
    | some b =>
      if !b.isTextblock then none
      else if inlinesSize b.inlines ≤ offset then none
      else
        let parts := splitInlinesAt b.inlines offset
        some (cell.blocks.set blockIdx { b with inlines := parts.1 },
          [{ name := b.name, isTextblock := b.isTextblock, inlines := parts.2 }])

/-- The active-cell context: the table, row and cell indices the selection
resolves to. -/
structure ActiveCtx where
  tableIdx : Nat
  rowIdx : Nat
  cellIdx : Nat
deriving DecidableEq, Repr

/-- maybePaginateActiveCell / paginateCellAtContext from part_000 (the
document transformation; selection bookkeeping is not modelled).  The
geometry inputs are the overflow flag and the split point; freshOriginId and
freshNextId stand for the newId() results used when the row has no rmRowId or
no rmLinkedNext. -/
def paginateCore (d : Doc) (ctx : ActiveCtx) (overflowing : Bool) (sp : SplitSpec)
    (freshOriginId freshNextId : String) : Option Doc :=
  match d[ctx.tableIdx]? with
  | none => none
  | some tb =>
    match tb.rows[ctx.rowIdx]? with
    | none => none
    | some rowNode =>
      match rowNode.cells[ctx.cellIdx]? with
      | none => none
      | some cellNode =>
        if tb.locked then none
        else if !overflowing then none
        else
          match applySplit cellNode sp with
          | none => none
          | some (remaining, moved) =>
            let originRowId := ensureRowId rowNode.rmRowId freshOriginId
            let nextRowIdExisting := rowNode.rmLinkedNext
            let nextRowId := nextRowIdExisting.getD freshNextId
            let d1 :=
              if !(strTruthy nextRowIdExisting) then
                insertRowAt
                  (updateRowAt d (ctx.tableIdx, ctx.rowIdx) fun r =>
                    { r with rmRowId := some originRowId, rmLinkedNext := some nextRowId })
                  ctx.tableIdx (ctx.rowIdx + 1)
                  (buildEmptyLinkedRow rowNode nextRowId (some originRowId))
              else
                updateRowAt d (ctx.tableIdx, ctx.rowIdx) fun r =>
                  { r with rmRowId := some originRowId }
            let d2 := updateCellAt d1 (ctx.tableIdx, ctx.rowIdx) ctx.cellIdx fun c =>
              { c with blocks := remaining }
            match findRowLocById d2 nextRowId with
            | none => none
            | some (nloc, nextRowNode) =>
              let d3 :=
                if nextRowNode.rmLinkedPrev ≠ some originRowId then
                  updateRowAt d2 nloc fun r => { r with rmLinkedPrev := some originRowId }
                else d2
              match (getRowAt d3 nloc).bind fun r => r.cells[ctx.cellIdx]? with
              | none => none
              | some targetCell =>
                some (updateCellAt d3 nloc ctx.cellIdx fun c =>
                  { c with blocks :=
                      if isEmptyPlaceholderCell targetCell then moved
                      else moved ++ targetCell.blocks })

/-! ### Merge-back engine (part_000) -/

/-- MERGE_BACK_MIN_FREE_PX. -/
def mergeBackMinFreePx : Int := 18

/-- MERGE_BACK_BUFFER_PX. -/
def mergeBackBufferPx : Int := 10

/-- moveWholeBlockFromNextToOrigin from part_000: delete one whole block from
the continuation cell and append it at the end of the origin cell (replacing
the placeholder paragraph when the origin cell is an untouched placeholder). -/
def moveWholeBlockFromNextToOrigin (d : Doc) (originLoc : Nat × Nat) (originCi : Nat)
    (nextLoc : Nat × Nat) (nextCi : Nat) (blockIdx : Nat) : Option Doc :=
  match (getRowAt d nextLoc).bind fun r => r.cells[nextCi]? with
  | none => none
  | some nextCell =>
    match nextCell.blocks[blockIdx]? with
    | none => none
    | some blk =>
      let d1 := updateCellAt d nextLoc nextCi fun c =>
        { c with blocks := removeNth c.blocks blockIdx }
      match (getRowAt d1 originLoc).bind fun r => r.cells[originCi]? with
      | none => none
      | some originCell =>
        some (updateCellAt d1 originLoc originCi fun c =>
          { c with blocks :=
              if isEmptyPlaceholderCell originCell then [blk]
              else c.blocks ++ [blk] })

/-- cleanupEmptyLinkedRowInTr from part_000: if the continuation row (looked
up by id) is now completely empty, delete it and relink the chain around it. -/
def cleanupEmptyLinkedRowInTr (d : Doc) (currentRowId nextRowId : String) : Doc :=
  match findRowLocById d nextRowId with
  | none => d
  | some (nloc, nextRowNode) =>
    if !(isRowCompletelyEmpty nextRowNode) then d
    else
      let nextNextId := asStringOrNull nextRowNode.rmLinkedNext
      let d1 := deleteRowAt d nloc
      let d2 :=
        match findRowLocById d1 currentRowId with
        | none => d1
        | some (cloc, _) => updateRowAt d1 cloc fun r => { r with rmLinkedNext := nextNextId }
      match nextNextId with
      | none => d2
      | some nn =>
        match findRowLocById d2 nn with
        | none => d2
        | some (nnloc, _) =>
          updateRowAt d2 nnloc fun r => { r with rmLinkedPrev := some currentRowId }

/-- deleteRowIfEmptyAndRelink from part_000.  The relink of the current row is
done through its pre-deletion position; that position still denotes the
current row only when the current row lies before the deleted continuation
row in document order, otherwise the stale position no longer resolves to a
row and safeSetNodeMarkup is a no-op. -/
def deleteRowIfEmptyAndRelink (d : Doc) (currentRowId : String) (curLoc nextLoc : Nat × Nat)
    (_nextRowId : String) : Option Doc :=
  match getRowAt d nextLoc with
  | none => none
  | some nextRowNode =>
    if !(isRowCompletelyEmpty nextRowNode) then none
    else
      let nextNextId := asStringOrNull nextRowNode.rmLinkedNext
      let d1 := deleteRowAt d nextLoc
      let d2 :=
        if locLt curLoc nextLoc then
          updateRowAt d1 curLoc fun r => { r with rmLinkedNext := nextNextId }
        else d1
      match nextNextId with
      | none => some d2
      | some nn =>
        match findRowLocById d2 nn with
        | none => some d2
        | some (nnloc, _) =>
          some (updateRowAt d2 nnloc fun r => { r with rmLinkedPrev := some currentRowId })

/-- maybeMergeBackActiveCell from part_000 (document transformation;
geometry inputs: the overflow flag of the active cell, its spare capacity in
pixels, and the rendered height of the first meaningful block of the aligned
continuation cell). -/
def maybeMergeBackActiveCell (d : Doc) (ctx : ActiveCtx) (overflowing : Bool)
    (capacityPx blockHeightPx : Int) : Option Doc :=
  match d[ctx.tableIdx]? with
  | none => none
  | some tb =>
    match tb.rows[ctx.rowIdx]? with
    | none => none
    | some rowNode =>
      match rowNode.cells[ctx.cellIdx]? with
      | none => none
      | some _cellNode =>
        if tb.locked then none
        else
          match asStringOrNull rowNode.rmRowId, asStringOrNull rowNode.rmLinkedNext with
          | some currentRowId, some nextRowId =>
            if overflowing then none
            else if capacityPx < mergeBackMinFreePx then none
            else
              match findRowLocById d nextRowId with
              | none => none
              | some (nloc, nextRowNode) =>
                let nextPrev := asStringOrNull nextRowNode.rmLinkedPrev
                if nextPrev.isSome && nextPrev ≠ some currentRowId then none
                else
                  match nextRowNode.cells[ctx.cellIdx]? with
                  | none => none
                  | some nextCellNode =>
                    if isRowCompletelyEmpty nextRowNode then
                      deleteRowIfEmptyAndRelink d currentRowId
                        (ctx.tableIdx, ctx.rowIdx) nloc nextRowId
                    else
                      match getFirstMeaningfulBlockIndex nextCellNode with
                      | none => none
                      | some firstBlockIndex =>
                        if capacityPx < blockHeightPx + mergeBackBufferPx then none
                        else
                          match moveWholeBlockFromNextToOrigin d
                              (ctx.tableIdx, ctx.rowIdx) ctx.cellIdx
                              nloc ctx.cellIdx firstBlockIndex with
                          | none => none
                          | some d1 =>
                            some (cleanupEmptyLinkedRowInTr d1 currentRowId nextRowId)
          | _, _ => none

/-! ### Chain cleanup reconciler (part_000) -/

/-- Insertion-ordered association list modelling a JS Map: set keeps the
original position of an existing key and overwrites its value. -/
def assocSet (k : String) (v : α) : List (String × α) → List (String × α)
  | [] => [(k, v)]
  | (k', v') :: rest => if k' = k then (k, v) :: rest else (k', v') :: assocSet k v rest

def lookupAssoc (m : List (String × α)) (k : String) : Option α :=
  (m.find? fun p => p.1 == k).map fun p => p.2

/-- collectRowsById from part_000: rows keyed by their trimmed rmRowId. -/
def collectRowsById (d : Doc) : List (String × Row) :=
  (allRows d).foldl (fun m r =>
    match asStringOrNull r.rmRowId with
    | none => m
    | some id => assocSet id r m) []

/-- The while loop of cleanupDeletedRowChains walking rmLinkedNext through
the pre-edit rows, accumulating removeIds. -/
def walkNext (oldMap : List (String × Row)) : Nat → List String → Option String → List String
  | 0, acc, _ => acc
  | _ + 1, acc, none => acc
  | fuel + 1, acc, some nextId =>
    if nextId ∈ acc then acc
    else
      let acc' := acc ++ [nextId]
      match lookupAssoc oldMap nextId with
      | none => acc'
      | some nextRow => walkNext oldMap fuel acc' (asStringOrNull nextRow.rmLinkedNext)

/-- cleanupDeletedRowChains from part_000 on documents without tableRowGroup
wrappers (groupsToDelete is empty on such documents): compare the pre- and
post-edit row-id sets, cascade removal down the pre-edit chains of every
deleted row, clear the rmLinkedNext of surviving predecessors, and delete
tables that lost every kept row. -/
def cleanupDeletedRowChains (oldDoc newDoc : Doc) : Option Doc :=
  let oldMap := collectRowsById oldDoc
  if oldMap.isEmpty then none
  else
    let newMap := collectRowsById newDoc
    let deletedIds := (oldMap.filter fun p => (lookupAssoc newMap p.1).isNone).map fun p => p.1
    if deletedIds.isEmpty then none
    else
      let removeIds := deletedIds.foldl (fun acc did =>
        match lookupAssoc oldMap did with
        | none => acc
        | some oldRow =>
          walkNext oldMap (oldMap.length + 1) acc (asStringOrNull oldRow.rmLinkedNext)) []
      let clearPrevIds := deletedIds.foldl (fun acc did =>
        match lookupAssoc oldMap did with
        | none => acc
        | some oldRow =>
          match asStringOrNull oldRow.rmLinkedPrev with
          | none => acc
          | some prevId =>
            if (lookupAssoc newMap prevId).isSome && prevId ∉ acc then acc ++ [prevId]
            else acc) []
      if removeIds.isEmpty && clearPrevIds.isEmpty then none
      else
        let tableKeep : Table → Nat := fun tb =>
          (tb.rows.filter fun r =>
            match asStringOrNull r.rmRowId with
            | some id => !(removeIds.contains id)
            | none => true).length
        let anyMarkup := (rowsIndexed newDoc).any fun x =>
          match asStringOrNull x.2.rmRowId with
          | some id =>
            clearPrevIds.contains id &&
              !((newDoc.get? x.1.1).elim false fun tb => tableKeep tb == 0)
          | none => false
        let anyDeletion :=
          (newDoc.any fun tb => tableKeep tb == 0) ||
            ((allRows newDoc).any fun r =>
              match asStringOrNull r.rmRowId with
              | some id => removeIds.contains id
              | none => false)
        if !anyMarkup && !anyDeletion then none
        else
          some ((newDoc.filter fun tb => !(tableKeep tb == 0)).map fun tb =>
            { tb with rows := (tb.rows.filter fun r =>
                match asStringOrNull r.rmRowId with
                | some id => !(removeIds.contains id)
                | none => true).map fun r =>
              match asStringOrNull r.rmRowId with
              | some id =>
                if clearPrevIds.contains id then { r with rmLinkedNext := none } else r
              | none => r })

/-- The meta flags of a ProseMirror transaction relevant to the reconciler. -/
structure TrMeta where
  rmRowCleanup : Bool
  docChanged : Bool
deriving DecidableEq, Repr

/-- The appendTransaction step of the TableRowOverflow plugin: skip when a
triggering transaction carries the rmRowCleanup meta or none changed the doc,
otherwise run the cleanup; a produced cleanup transaction carries the
rmRowCleanup meta and has document-changing steps. -/
def appendTransactionOverflow (trs : List TrMeta) (oldDoc newDoc : Doc) :
    Option (Doc × TrMeta) :=
  if trs.any fun t => t.rmRowCleanup then none
  else if !(trs.any fun t => t.docChanged) then none
  else
    match cleanupDeletedRowChains oldDoc newDoc with
    | none => none
    | some d => some (d, { rmRowCleanup := true, docChanged := true })

/-! ### Lemmas on the indexed list helpers -/

theorem updateNth_getElem? (l : List α) (n : Nat) (f : α → α) (m : Nat) :
    (updateNth l n f)[m]? = if m = n then l[m]?.map f else l[m]? := by
  induction l generalizing n m with
  | nil => simp [updateNth]
  | cons a l ih =>
    cases n with
    | zero =>
      cases m with
      | zero => simp [updateNth]
      | succ m => simp [updateNth]
    | succ n =>
      cases m with
      | zero => simp [updateNth]
      | succ m =>
        simp only [updateNth, List.getElem?_cons_succ, ih n m]
        by_cases h : m = n <;> simp [h]

theorem updateNth_length (l : List α) (n : Nat) (f : α → α) :
    (updateNth l n f).length = l.length := by
  induction l generalizing n with
  | nil => simp [updateNth]
  | cons a l ih =>
    cases n with
    | zero => simp [updateNth]
    | succ n => simp [updateNth, ih]

theorem removeNth_eq (l : List α) (n : Nat) (h : n < l.length) :
    removeNth l n = l.take n ++ l.drop (n + 1) := by
  induction l generalizing n with
  | nil => simp at h
  | cons a l ih =>
    cases n with
    | zero => simp [removeNth]
    | succ n =>
      simp only [removeNth, List.take_succ_cons, List.drop_succ_cons, List.cons_append]
      rw [ih n (by simpa using h)]

theorem removeNth_length (l : List α) (n : Nat) (h : n < l.length) :
    (removeNth l n).length + 1 = l.length := by
  rw [removeNth_eq l n h]
  simp only [List.length_append, List.length_take, List.length_drop]
  omega

theorem mapWithIndexFrom_getElem? (f : Nat → α → α) (i : Nat) (l : List α) (m : Nat) :
    (mapWithIndexFrom f i l)[m]? = l[m]?.map (f (i + m)) := by
  induction l generalizing i m with
  | nil => simp [mapWithIndexFrom]
  | cons a l ih =>
    cases m with
    | zero => simp [mapWithIndexFrom]
    | succ m =>
      simp only [mapWithIndexFrom, List.getElem?_cons_succ, ih (i + 1) m]
      have h : i + 1 + m = i + (m + 1) := by omega
      rw [h]

theorem mapWithIndex_getElem? (f : Nat → α → α) (l : List α) (m : Nat) :
    (mapWithIndex f l)[m]? = l[m]?.map (f m) := by
  simpa using mapWithIndexFrom_getElem? f 0 l m

theorem mapWithIndexFrom_length (f : Nat → α → α) (i : Nat) (l : List α) :
    (mapWithIndexFrom f i l).length = l.length := by
  induction l generalizing i with
  | nil => rfl
  | cons a l ih => simp [mapWithIndexFrom, ih]

theorem mapWithIndex_length (f : Nat → α → α) (l : List α) :
    (mapWithIndex f l).length = l.length :=
  mapWithIndexFrom_length f 0 l

theorem insertNth_length (n : Nat) (a : α) (l : List α) (hn : n ≤ l.length) :
    (insertNth n a l).length = l.length + 1 := by
  unfold insertNth
  simp only [List.length_append, List.length_take, List.length_cons, List.length_drop]
  omega

theorem insertNth_getElem?_lt (n : Nat) (a : α) (l : List α) (m : Nat) (h : m < n)
    (hn : n ≤ l.length) : (insertNth n a l)[m]? = l[m]? := by
  unfold insertNth
  rw [List.getElem?_append_left]
  · exact List.getElem?_take_of_lt h
  · rw [List.length_take]
    omega

theorem insertNth_getElem?_self (n : Nat) (a : α) (l : List α) (hn : n ≤ l.length) :
    (insertNth n a l)[n]? = some a := by
  unfold insertNth
  rw [List.getElem?_append_right]
  · rw [List.length_take, Nat.min_eq_left hn, Nat.sub_self]
    exact List.getElem?_cons_zero
  · rw [List.length_take]
    omega

theorem insertNth_getElem?_succ (n : Nat) (a : α) (l : List α) (m : Nat) (hm : n ≤ m)
    (hn : n ≤ l.length) : (insertNth n a l)[m + 1]? = l[m]? := by
  unfold insertNth
  rw [List.getElem?_append_right]
  · rw [List.length_take, Nat.min_eq_left hn]
    have h1 : m + 1 - n = (m - n) + 1 := by omega
    rw [h1, List.getElem?_cons_succ, List.getElem?_drop]
    congr 1
    omega
  · rw [List.length_take]
    omega

/-! ### Shared concrete inputs for counterexamples and witnesses -/

def normalAttrs (id : String) : CellAttrs :=
  { rmCellId := some id
    rmMergeOrigin := false
    rmMergedTo := none
    rmHideMode := none
    rmColspan := 1
    rmRowspan := 1 }

def demoCellA : Cell := { attrs := normalAttrs "a", blocks := [emptyParagraph] }

def demoCellB : Cell := { attrs := normalAttrs "b", blocks := [emptyParagraph] }

def demoPlainRow : Row :=
  { rmRowId := none, rmLinkedPrev := none, rmLinkedNext := none,
    cells := [demoCellA, demoCellB] }

def lockedDemoTable : Table := { locked := true, rows := [demoPlainRow] }

def openDemoTable : Table := { locked := false, rows := [demoPlainRow] }

/-- The 1-row by 2-column selection rectangle over the demo tables. -/
def demoRect12 : Rect := { top := 0, left := 0, bottom := 1, right := 2 }

/-! ### Generic lemma: Option-valued mapM sends members to members -/

theorem mapM_option_mem {f : α → Option β} :
    ∀ {l : List α} {out : List β}, l.mapM f = some out → ∀ a ∈ l, ∃ b ∈ out, f a = some b := by
  intro l
  induction l with
  | nil => intro out _ a ha; simp at ha
  | cons x l ih =>
    intro out h a ha
    rw [List.mapM_cons] at h
    simp only [Option.bind_eq_bind, Option.bind_eq_some, Option.pure_def,
      Option.some.injEq] at h
    obtain ⟨b, hx, bs, hl, rfl⟩ := h
    rcases List.mem_cons.1 ha with rfl | hmem
    · exact ⟨b, List.mem_cons_self _ _, hx⟩
    · obtain ⟨b', hb', hfb'⟩ := ih hl a hmem
      exact ⟨b', List.mem_cons_of_mem _ hb', hfb'⟩

/-! ### C4 -/

/-- C4: a merge over a 1-by-1 rectangle, or over a rectangle containing a
covered cell (truthy rmMergedTo) or an origin cell (rmMergeOrigin with a span
exceeding 1 — the only origin shape the merge engine produces), reports
failure and leaves the document unchanged: mergeInternal returns ok none,
meaning false is returned and no transaction is dispatched. -/
theorem c4_merge_overlap_rejection (hasParagraph : Bool) (t : Table) (rect : Rect)
    (h : (rect.right - rect.left = 1 ∧ rect.bottom - rect.top = 1) ∨
      ∃ rc ∈ rectCoords rect, ∃ cl, cellAt t rc.1 rc.2 = some cl ∧
        (strTruthy cl.attrs.rmMergedTo = true ∨
          (cl.attrs.rmMergeOrigin = true ∧
            (1 < cl.attrs.rmRowspan ∨ 1 < cl.attrs.rmColspan)))) :
    mergeInternal hasParagraph t rect = .ok none := by
  rcases h with ⟨hw, hh⟩ | ⟨rc, hrc, cl, hcell, hbad⟩
  · simp [mergeInternal, hw, hh]
  · cases hmap : (rectCoords rect).mapM
        (fun rc => (cellAt t rc.1 rc.2).map fun cl => (rc, cl)) with
    | none =>
      simp only [mergeInternal, hmap]
      split <;> rfl
    | some cells =>
      obtain ⟨p, hp, hfp⟩ := mapM_option_mem hmap rc hrc
      rw [hcell] at hfp
      simp only [Option.map_some', Option.some.injEq] at hfp
      subst hfp
      simp only [mergeInternal, hmap]
      split
      · rfl
      · rcases hbad with hcov | ⟨horig, hspan⟩
        · have hany : cells.any (fun x => strTruthy x.2.attrs.rmMergedTo) = true :=
            List.any_eq_true.2 ⟨(rc, cl), hp, hcov⟩
          simp [hany]
        · have hany2 : cells.any (fun x => x.2.attrs.rmMergeOrigin &&
              (decide (1 < x.2.attrs.rmRowspan) || decide (1 < x.2.attrs.rmColspan))) = true := by
            refine List.any_eq_true.2 ⟨(rc, cl), hp, ?_⟩
            simp only [horig, Bool.true_and, Bool.or_eq_true, decide_eq_true_eq]
            exact hspan
          cases hcov2 : cells.any (fun x => strTruthy x.2.attrs.rmMergedTo) <;>
            simp [hcov2, hany2]

/-- Witness for C4 at a concrete input: a 1-by-1 rectangle on the open demo
table is rejected. -/
theorem c4_witness :
    mergeInternal true openDemoTable { top := 0, left := 0, bottom := 1, right := 1 } =
      .ok none :=
  c4_merge_overlap_rejection true openDemoTable _ (Or.inl ⟨rfl, rfl⟩)

/-! ### C8 -/

/-- The merged-origin cell produced by merging the locked demo table. -/
def lockedDemoOriginCell : Cell :=
  { attrs :=
      { rmCellId := some "a"
        rmMergeOrigin := true
        rmMergedTo := none
        rmHideMode := none
        rmColspan := 2
        rmRowspan := 1 }
    blocks := [emptyParagraph] }

/-- The covered cell produced by merging the locked demo table. -/
def lockedDemoCoveredCell : Cell :=
  { attrs :=
      { rmCellId := some "b"
        rmMergeOrigin := false
        rmMergedTo := some "a"
        rmHideMode := some "none"
        rmColspan := 1
        rmRowspan := 1 }
    blocks := [emptyParagraph] }

/-- The result of merging the two cells of the locked demo table. -/
def lockedDemoMergedTable : Table :=
  { locked := true
    rows := [{ rmRowId := none
               rmLinkedPrev := none
               rmLinkedNext := none
               cells := [lockedDemoOriginCell, lockedDemoCoveredCell] }] }

theorem lockedDemo_merge_eval :
    mergeInternal true lockedDemoTable demoRect12 = .ok (some lockedDemoMergedTable) := by
  rfl

/-- C8 counterexample: the merge command is not guarded by the table's locked
attribute — on a locked table with two normal cells it succeeds and rewrites
the table, so the claimed locked-table invariant fails for merge/unmerge. -/
theorem c8_counterexample :
    lockedDemoTable.locked = true ∧
    mergeInternal true lockedDemoTable demoRect12 = .ok (some lockedDemoMergedTable) ∧
    lockedDemoMergedTable ≠ lockedDemoTable :=
  ⟨rfl, lockedDemo_merge_eval, by decide⟩

/-- C8 amended: while locked is true, pagination and merge-back never mutate
the table (both return none, dispatching nothing); the merge/unmerge commands
of TableMergePlus are not guarded by locked. -/
theorem c8_locked_amended :
    (∀ (d : Doc) (ctx : ActiveCtx) (ov : Bool) (sp : SplitSpec) (fo fn : String)
        (tb : Table), d[ctx.tableIdx]? = some tb → tb.locked = true →
        paginateCore d ctx ov sp fo fn = none) ∧
    (∀ (d : Doc) (ctx : ActiveCtx) (ov : Bool) (cap bh : Int) (tb : Table),
        d[ctx.tableIdx]? = some tb → tb.locked = true →
        maybeMergeBackActiveCell d ctx ov cap bh = none) ∧
    mergeInternal true lockedDemoTable demoRect12 ≠ .ok none := by
  refine ⟨?_, ?_, ?_⟩
  · intro d ctx ov sp fo fn tb htb hl
    simp only [paginateCore, htb]
    cases hrow : tb.rows[ctx.rowIdx]? with
    | none => rfl
    | some rowNode =>
      cases hcell : rowNode.cells[ctx.cellIdx]? with
      | none => simp only [hrow, hcell]
      | some cellNode => simp [hrow, hcell, hl]
  · intro d ctx ov cap bh tb htb hl
    simp only [maybeMergeBackActiveCell, htb]
    cases hrow : tb.rows[ctx.rowIdx]? with
    | none => rfl
    | some rowNode =>
      cases hcell : rowNode.cells[ctx.cellIdx]? with
      | none => simp only [hrow, hcell]
      | some cellNode => simp [hrow, hcell, hl]
  · intro h
    rw [lockedDemo_merge_eval] at h
    simp at h

/-- Witness for C8 amended: on a concrete locked one-table document both
automatic engines refuse to act. -/
theorem c8_witness :
    paginateCore [lockedDemoTable] { tableIdx := 0, rowIdx := 0, cellIdx := 0 } true
        (.blockSplit 0) "f1" "f2" = none ∧
    maybeMergeBackActiveCell [lockedDemoTable] { tableIdx := 0, rowIdx := 0, cellIdx := 0 }
        false 100 10 = none :=
  ⟨c8_locked_amended.1 _ _ _ _ _ _ lockedDemoTable rfl rfl,
    c8_locked_amended.2.1 _ _ _ _ _ lockedDemoTable rfl rfl⟩

/-! ### C9 -/

/-- C9 counterexample: with a schema lacking the paragraph node type, the
merge command on a valid 2-cell rectangle throws (Schema must have paragraph
node for table cells) instead of returning a success boolean — the exception
crosses the command boundary. -/
theorem c9_counterexample :
    mergeInternal false openDemoTable demoRect12 = .error () := by
  rfl

/-- With a paragraph node type available, mergeInternal never throws. -/
theorem mergeInternal_true_ok (t : Table) (rect : Rect) :
    ∃ r, mergeInternal true t rect = .ok r := by
  cases hres : mergeInternal true t rect with
  | ok r => exact ⟨r, rfl⟩
  | error e =>
    exfalso
    unfold mergeInternal at hres
    repeat'
      first
        | (simp [emptyCellContent] at hres; done)
        | ((rename_i heq; split at heq <;> simp at heq); done)
        | ((rename_i heq; simp [emptyCellContent] at heq); done)
        | split at hres
        | simp [emptyCellContent] at hres

/-- With a paragraph node type available, unmergeInternal never throws. -/
theorem unmergeInternal_true_ok (t : Table) (anchor head : Nat × Nat) :
    ∃ r, unmergeInternal true t anchor head = .ok r := by
  cases hres : unmergeInternal true t anchor head with
  | ok r => exact ⟨r, rfl⟩
  | error e =>
    exfalso
    unfold unmergeInternal at hres
    repeat'
      first
        | (simp [emptyCellContent] at hres; done)
        | ((rename_i heq; split at heq <;> simp at heq); done)
        | ((rename_i heq; simp [emptyCellContent] at heq); done)
        | split at hres
        | simp [emptyCellContent] at hres

/-- With a paragraph node type available, the unmerge loop of deleteRowPlus
never throws. -/
theorem unmergeTargetsLoop_true_ok (rowIndex : Nat) :
    ∀ (targets : List (Nat × String)) (t : Table),
      ∃ r, unmergeTargetsLoop true rowIndex t targets = .ok r := by
  intro targets
  induction targets with
  | nil => intro t; exact ⟨t, rfl⟩
  | cons x rest ih =>
    intro t
    obtain ⟨c, oid⟩ := x
    obtain ⟨r, hr⟩ := unmergeInternal_true_ok t (rowIndex, c) (rowIndex, c)
    cases r with
    | none => simpa only [unmergeTargetsLoop, hr] using ih t
    | some t2 => simpa only [unmergeTargetsLoop, hr] using ih t2

/-- With a paragraph node type available, deleteRowPlus never throws. -/
theorem deleteRowPlus_true_ok (t : Table) (rowIndex : Nat) :
    ∃ r, deleteRowPlus true t rowIndex = .ok r := by
  unfold deleteRowPlus
  cases hrow : t.rows[rowIndex]? with
  | none => exact ⟨none, rfl⟩
  | some row =>
    obtain ⟨t1, h1⟩ := unmergeTargetsLoop_true_ok rowIndex (deleteRowTargets t rowIndex) t
    rw [h1]
    exact ⟨_, rfl⟩

/-- With a paragraph node type available, insertRowAfterPlus never throws. -/
theorem insertRowAfterPlus_true_ok (t : Table) (i : Nat) :
    ∃ r, insertRowAfterPlus true t i = .ok r := by
  unfold insertRowAfterPlus
  cases hrow : t.rows[i]? with
  | none => exact ⟨none, rfl⟩
  | some row =>
    simp only [emptyCellContent, if_true]
    split
    · exact ⟨_, rfl⟩
    · split
      · exact ⟨_, rfl⟩
      · exact ⟨_, rfl⟩

/-- C9 amended: provided the schema has a paragraph node type, every command
on the extension's commands surface (mergeTableSelection,
unmergeTableAtSelection, toggleTableMerge, deleteRowPlus, insertRowAfterPlus)
returns a success boolean on every input state and never throws; without a
paragraph node the merge path throws. -/
theorem c9_no_throw_amended :
    (∀ (t : Table) (rect : Rect), ∃ r, mergeInternal true t rect = .ok r) ∧
    (∀ (t : Table) (anchor head : Nat × Nat),
      ∃ r, unmergeInternal true t anchor head = .ok r) ∧
    (∀ (t : Table) (anchor head : Nat × Nat) (rect : Rect),
      ∃ r, toggleTableMerge true t anchor head rect = .ok r) ∧
    (∀ (t : Table) (rowIndex : Nat), ∃ r, deleteRowPlus true t rowIndex = .ok r) ∧
    (∀ (t : Table) (rowIndex : Nat), ∃ r, insertRowAfterPlus true t rowIndex = .ok r) := by
  refine ⟨mergeInternal_true_ok, unmergeInternal_true_ok, ?_, deleteRowPlus_true_ok,
    insertRowAfterPlus_true_ok⟩
  intro t anchor head rect
  unfold toggleTableMerge
  obtain ⟨r, hr⟩ := unmergeInternal_true_ok t anchor head
  rw [hr]
  cases r with
  | none => exact mergeInternal_true_ok t rect
  | some t2 => exact ⟨some t2, rfl⟩

/-! ### C3: the merge postcondition -/

/-- The consolidated content prescribed by the spec: concatenate, in
row-major order (the origin, at the rectangle's top-left, is the first
row-major coordinate), the meaningful blocks of every cell of the rectangle
that is not visually empty; a single empty paragraph if every cell is
visually empty. -/
def specMergedContent (t : Table) (rect : Rect) : List Block :=
  let cls := (rectCoords rect).filterMap fun rc => cellAt t rc.1 rc.2
  let bs := (cls.filter fun cl => !(isVisuallyEmptyCell cl)).flatMap meaningfulBlocksFromCell
  if bs.isEmpty then [emptyParagraph] else bs

theorem mapM_pair_props {f : α → Option β} :
    ∀ {l : List α} {out : List (α × β)},
      l.mapM (fun a => (f a).map fun b => (a, b)) = some out →
      out.map Prod.fst = l ∧ l.filterMap f = out.map Prod.snd ∧
        ∀ p ∈ out, f p.1 = some p.2 := by
  intro l
  induction l with
  | nil =>
    intro out h
    simp only [List.mapM_nil, Option.pure_def, Option.some.injEq] at h
    subst h
    simp
  | cons x l ih =>
    intro out h
    rw [List.mapM_cons] at h
    simp only [Option.bind_eq_bind, Option.bind_eq_some, Option.pure_def,
      Option.some.injEq, Option.map_eq_some'] at h
    obtain ⟨p, ⟨b, hfb, rfl⟩, bs, hbs, rfl⟩ := h
    obtain ⟨ih1, ih2, ih3⟩ := ih hbs
    refine ⟨by simp [ih1], ?_, ?_⟩
    · simp only [List.filterMap_cons, hfb, List.map_cons, ih2]
    · intro p hp
      rcases List.mem_cons.1 hp with rfl | hmem
      · exact hfb
      · exact ih3 p hmem

/-- Reading a cell back out of the pointwise table rewrite performed by
mergeInternal / unmergeInternal. -/
theorem cellAt_mapWithIndex (t : Table) (g : Nat → Nat → Cell → Cell) (r c : Nat) :
    cellAt { locked := t.locked, rows := mapWithIndex (fun r row =>
      { row with cells := mapWithIndex (fun c cl => g r c cl) row.cells }) t.rows } r c =
    (cellAt t r c).map (g r c) := by
  unfold cellAt
  simp only [mapWithIndex_getElem?]
  cases hrow : t.rows[r]? with
  | none => rfl
  | some row => simp [mapWithIndex_getElem?]

theorem mem_rectCoords {rect : Rect} {rc : Nat × Nat} :
    rc ∈ rectCoords rect ↔
      rect.top ≤ rc.1 ∧ rc.1 < rect.bottom ∧ rect.left ≤ rc.2 ∧ rc.2 < rect.right := by
  obtain ⟨r, c⟩ := rc
  simp only [rectCoords, List.mem_flatMap, List.mem_map, List.mem_range]
  constructor
  · rintro ⟨i, hi, j, hj, heq⟩
    cases heq
    omega
  · rintro ⟨h1, h2, h3, h4⟩
    refine ⟨r - rect.top, by omega, c - rect.left, by omega, ?_⟩
    have hr : rect.top + (r - rect.top) = r := by omega
    have hc : rect.left + (c - rect.left) = c := by omega
    rw [hr, hc]

theorem inRect_eq_true {rect : Rect} {r c : Nat} :
    inRect rect r c = true ↔
      rect.top ≤ r ∧ r < rect.bottom ∧ rect.left ≤ c ∧ c < rect.right := by
  simp [inRect, and_assoc]

/-- When the rectangle is nonempty, its row-major enumeration starts at the
top-left coordinate, which occurs nowhere else in it. -/
theorem rectCoords_eq_cons {rect : Rect} (h1 : rect.top < rect.bottom)
    (h2 : rect.left < rect.right) :
    ∃ tail, rectCoords rect = (rect.top, rect.left) :: tail ∧
      ∀ rc ∈ tail, rc ≠ (rect.top, rect.left) := by
  obtain ⟨k, hk⟩ : ∃ k, rect.bottom - rect.top = k + 1 := ⟨rect.bottom - rect.top - 1, by omega⟩
  obtain ⟨m, hm⟩ : ∃ m, rect.right - rect.left = m + 1 := ⟨rect.right - rect.left - 1, by omega⟩
  unfold rectCoords
  rw [hk, hm, List.range_succ_eq_map, List.range_succ_eq_map]
  simp only [List.flatMap_cons, List.map_cons, List.cons_append, Nat.add_zero]
  refine ⟨_, rfl, ?_⟩
  intro rc hrc
  simp only [List.mem_append, List.mem_map, List.mem_flatMap, List.mem_range] at hrc
  rcases hrc with ⟨j, ⟨j', hj', rfl⟩, rfl⟩ | ⟨i, ⟨i', hi', rfl⟩, hmem⟩
  · simp only [ne_eq, Prod.mk.injEq, not_and]
    omega
  · rcases List.mem_cons.mp hmem with rfl | hmem2
    · simp only [ne_eq, Prod.mk.injEq, not_and]
      omega
    · simp only [List.mem_map] at hmem2
      obtain ⟨j, hj, rfl⟩ := hmem2
      simp only [ne_eq, Prod.mk.injEq, not_and]
      omega

/-- C3: after a successful merge (the dispatched transaction rewrites the
table to t'), the top-left cell of the rectangle is the origin carrying
rmMergeOrigin, spans equal to the rectangle's width and height, and the
consolidated content described by the spec; every other rectangle cell
becomes a covered cell pointing at the origin's rmCellId with 1-by-1 spans,
one empty paragraph, and rmHideMode none exactly on the origin's row and
hidden below it. -/
theorem c3_merge_postcondition (t : Table) (rect : Rect) (t' : Table)
    (hok : mergeInternal true t rect = .ok (some t')) :
    ∃ origin originId, cellAt t rect.top rect.left = some origin ∧
      origin.attrs.rmCellId = some originId ∧ originId ≠ "" ∧
      cellAt t' rect.top rect.left = some
        { attrs := { origin.attrs with
            rmMergeOrigin := true
            rmMergedTo := none
            rmHideMode := none
            rmColspan := rect.right - rect.left
            rmRowspan := rect.bottom - rect.top }
          blocks := specMergedContent t rect } ∧
      ∀ rc ∈ rectCoords rect, rc ≠ (rect.top, rect.left) →
        ∃ old, cellAt t rc.1 rc.2 = some old ∧
          cellAt t' rc.1 rc.2 = some
            { attrs := { old.attrs with
                rmMergeOrigin := false
                rmMergedTo := some originId
                rmHideMode := some (if rc.1 = rect.top then "none" else "hidden")
                rmColspan := 1
                rmRowspan := 1 }
              blocks := [emptyParagraph] } := by
  simp only [mergeInternal] at hok
  by_cases hdim : (rect.right - rect.left = 1 ∧ rect.bottom - rect.top = 1)
  · simp [hdim] at hok
  · rw [if_neg hdim] at hok
    cases hmap : (rectCoords rect).mapM (fun rc => (cellAt t rc.1 rc.2).map fun cl => (rc, cl)) with
    | none => rw [hmap] at hok; simp at hok
    | some cells =>
      rw [hmap] at hok
      obtain ⟨hfst, hfmap, hpt⟩ := mapM_pair_props hmap
      cases hcov : cells.any (fun x => strTruthy x.2.attrs.rmMergedTo) with
      | true => simp [hcov] at hok
      | false =>
        cases horig2 : cells.any (fun x => x.2.attrs.rmMergeOrigin &&
            (decide (1 < x.2.attrs.rmRowspan) || decide (1 < x.2.attrs.rmColspan))) with
        | true => simp [horig2, hcov] at hok
        | false =>
          simp only [hcov, horig2, Bool.false_eq_true, if_false] at hok
          cases hfind : cells.find? (fun x => x.1.1 == rect.top && x.1.2 == rect.left) with
          | none => rw [hfind] at hok; simp at hok
          | some origin =>
            rw [hfind] at hok
            have horigmem : origin ∈ cells := List.mem_of_find?_eq_some hfind
            have hocoord : origin.1 = (rect.top, rect.left) := by
              have := List.find?_some hfind
              simp only [Bool.and_eq_true, beq_iff_eq] at this
              exact Prod.ext this.1 this.2
            have hnonempty : rect.top < rect.bottom ∧ rect.left < rect.right := by
              have : origin.1 ∈ rectCoords rect := by
                rw [← hfst]
                exact List.mem_map_of_mem _ horigmem
              rw [hocoord, mem_rectCoords] at this
              exact ⟨by omega, by omega⟩
            obtain ⟨tail, htail, htailne⟩ := rectCoords_eq_cons hnonempty.1 hnonempty.2
            obtain ⟨c0, rest, rfl, hc0, hrest⟩ :
                ∃ c0 rest, cells = c0 :: rest ∧ c0.1 = (rect.top, rect.left) ∧
                  ∀ x ∈ rest, x.1 ≠ (rect.top, rect.left) := by
              cases cells with
              | nil => simp at hfst; rw [hfst] at htail; exact absurd htail (by simp)
              | cons c0 rest =>
                rw [htail] at hfst
                simp only [List.map_cons, List.cons.injEq] at hfst
                refine ⟨c0, rest, rfl, hfst.1, ?_⟩
                intro x hx
                have : x.1 ∈ tail := by
                  rw [← hfst.2]
                  exact List.mem_map_of_mem _ hx
                exact htailne _ this
            have hfind0 : (c0 :: rest).find?
                (fun x => x.1.1 == rect.top && x.1.2 == rect.left) = some c0 := by
              apply List.find?_cons_of_pos
              simp [hc0]
            have horigeq : origin = c0 := by
              rw [hfind0] at hfind
              exact (Option.some.injEq .. ▸ hfind.symm)
            subst horigeq
            cases htruthy : strTruthy origin.2.attrs.rmCellId with
            | false => simp [htruthy] at hok
            | true =>
              simp only [htruthy, Bool.not_true, Bool.false_eq_true, if_false] at hok
              obtain ⟨oid, hoid⟩ : ∃ s, origin.2.attrs.rmCellId = some s := by
                cases h : origin.2.attrs.rmCellId with
                | none => rw [h] at htruthy; simp [strTruthy] at htruthy
                | some s => exact ⟨s, rfl⟩
              have hoidne : oid ≠ "" := by
                rw [hoid] at htruthy
                simpa [strTruthy] using htruthy
              simp only [if_true] at hok
              rw [← apply_ite Except.ok] at hok
              simp only [emptyCellContent, if_pos, if_true] at hok
              simp only [Except.ok.injEq, Option.some.injEq] at hok
              -- the merged content equality
              have hblocks :
                  ((if (!(isVisuallyEmptyCell origin.2)) = true then
                      meaningfulBlocksFromCell origin.2 else []) ++
                    (((origin :: rest).filter fun (x : (Nat × Nat) × Cell) =>
                        (!(x.1.1 == rect.top && x.1.2 == rect.left)) &&
                          (!(isVisuallyEmptyCell x.2))).flatMap
                      fun x => meaningfulBlocksFromCell x.2)) =
                  ((((rectCoords rect).filterMap fun (rc : Nat × Nat) =>
                      cellAt t rc.1 rc.2).filter
                      (fun cl => !(isVisuallyEmptyCell cl))).flatMap
                    meaningfulBlocksFromCell) := by
                rw [hfmap]
                have hfilter : ((origin :: rest).filter fun (x : (Nat × Nat) × Cell) =>
                    (!(x.1.1 == rect.top && x.1.2 == rect.left)) &&
                      (!(isVisuallyEmptyCell x.2))) =
                    rest.filter fun x => !(isVisuallyEmptyCell x.2) := by
                  rw [List.filter_cons]
                  have : ((!(origin.1.1 == rect.top && origin.1.2 == rect.left)) &&
                      (!(isVisuallyEmptyCell origin.2))) = false := by
                    simp [hc0]
                  rw [this]
                  simp only [Bool.false_eq_true, if_false]
                  apply List.filter_congr
                  intro x hx
                  have hne := hrest x hx
                  cases hb : (x.1.1 == rect.top && x.1.2 == rect.left) with
                  | false => simp
                  | true =>
                    exfalso
                    simp only [Bool.and_eq_true, beq_iff_eq] at hb
                    exact hne (Prod.ext hb.1 hb.2)
                rw [hfilter]
                simp only [List.map_cons, List.filter_cons]
                cases hve : isVisuallyEmptyCell origin.2 with
                | true =>
                  simp only [hve, Bool.not_true, Bool.false_eq_true, if_false,
                    List.filter_map, List.flatMap_map]
                  rfl
                | false =>
                  simp only [hve, Bool.not_false, if_true, List.flatMap_cons,
                    List.filter_map, List.flatMap_map]
                  rfl
              refine ⟨origin.2, oid, ?_, hoid, hoidne, ?_, ?_⟩
              · have h0 := hpt origin (List.mem_cons_self _ _)
                rw [hc0] at h0
                exact h0
              · rw [← hok, cellAt_mapWithIndex]
                have hcellat : cellAt t rect.top rect.left = some origin.2 := by
                  have h0 := hpt origin (List.mem_cons_self _ _)
                  rw [hc0] at h0
                  exact h0
                rw [hcellat]
                have hin : inRect rect rect.top rect.left = true := by
                  rw [inRect_eq_true]
                  exact ⟨le_refl _, hnonempty.1, le_refl _, hnonempty.2⟩
                simp only [Option.map_some', hin, if_true, eq_self_iff_true,
                  and_self, ite_true]
                refine congrArg some ?_
                congr 1
                simp only [specMergedContent]
                rw [← hblocks]
              · intro rc hrc hrcne
                have hrcmem : ∃ p ∈ origin :: rest, p.1 = rc := by
                  rw [← hfst] at hrc
                  simp only [List.mem_map] at hrc
                  obtain ⟨p, hp, hpeq⟩ := hrc
                  exact ⟨p, hp, hpeq⟩
                obtain ⟨p, hp, rfl⟩ := hrcmem
                have hcellat : cellAt t p.1.1 p.1.2 = some p.2 := hpt p hp
                refine ⟨p.2, hcellat, ?_⟩
                rw [← hok, cellAt_mapWithIndex, hcellat]
                have hin : inRect rect p.1.1 p.1.2 = true := by
                  rw [inRect_eq_true]
                  have hmem2 : p.1 ∈ rectCoords rect := by
                    rw [← hfst]
                    exact List.mem_map_of_mem _ hp
                  rw [mem_rectCoords] at hmem2
                  exact hmem2
                have hne2 : ¬(p.1.1 = rect.top ∧ p.1.2 = rect.left) := by
                  intro hcontra
                  exact hrcne (Prod.ext hcontra.1 hcontra.2)
                simp only [Option.map_some', hin, if_true]
                rw [if_neg hne2]
                simp only [coveredCellOf, hoid, Option.getD_some]

/-- Witness for C3 at a concrete input: merging the two cells of the locked
demo table produces the claimed origin and covered cell shapes. -/
theorem c3_witness :
    ∃ origin originId,
      cellAt lockedDemoTable demoRect12.top demoRect12.left = some origin ∧
      origin.attrs.rmCellId = some originId ∧ originId ≠ "" ∧
      cellAt lockedDemoMergedTable demoRect12.top demoRect12.left = some
        { attrs := { origin.attrs with
            rmMergeOrigin := true
            rmMergedTo := none
            rmHideMode := none
            rmColspan := demoRect12.right - demoRect12.left
            rmRowspan := demoRect12.bottom - demoRect12.top }
          blocks := specMergedContent lockedDemoTable demoRect12 } ∧
      ∀ rc ∈ rectCoords demoRect12, rc ≠ (demoRect12.top, demoRect12.left) →
        ∃ old, cellAt lockedDemoTable rc.1 rc.2 = some old ∧
          cellAt lockedDemoMergedTable rc.1 rc.2 = some
            { attrs := { old.attrs with
                rmMergeOrigin := false
                rmMergedTo := some originId
                rmHideMode := some (if rc.1 = demoRect12.top then "none" else "hidden")
                rmColspan := 1
                rmRowspan := 1 }
              blocks := [emptyParagraph] } :=
  c3_merge_postcondition lockedDemoTable demoRect12 lockedDemoMergedTable
    lockedDemo_merge_eval

/-! ### C5: helper lemmas on the pointwise table rewrites -/

theorem enumFrom_mapWithIndexFrom (h : Nat → α → α) :
    ∀ (j : Nat) (l : List α),
      (mapWithIndexFrom h j l).enumFrom j = (l.enumFrom j).map fun p => (p.1, h p.1 p.2)
  | _, [] => rfl
  | j, x :: l => by
    simp only [mapWithIndexFrom, List.enumFrom_cons, List.map_cons]
    exact congrArg _ (enumFrom_mapWithIndexFrom h (j + 1) l)

theorem enum_mapWithIndex (h : Nat → α → α) (l : List α) :
    (mapWithIndex h l).enum = l.enum.map fun p => (p.1, h p.1 p.2) :=
  enumFrom_mapWithIndexFrom h 0 l

/-- The indexed cell listing of a pointwise table rewrite is the pointwise
image of the original listing. -/
theorem allCellsIndexed_pointwise (t : Table) (lk : Bool) (g : Nat → Nat → Cell → Cell) :
    allCellsIndexed { locked := lk, rows := mapWithIndex (fun r row =>
      { row with cells := mapWithIndex (fun c cl => g r c cl) row.cells }) t.rows } =
    (allCellsIndexed t).map fun x => (x.1, g x.1.1 x.1.2 x.2) := by
  unfold allCellsIndexed
  rw [enum_mapWithIndex, List.flatMap_map, List.map_flatMap]
  congr 1
  funext rp
  rw [enum_mapWithIndex]
  simp [List.map_map, Function.comp]

/-- Membership in the indexed cell listing is exactly the grid lookup. -/
theorem mem_allCellsIndexed {t : Table} {r c : Nat} {cl : Cell} :
    ((r, c), cl) ∈ allCellsIndexed t ↔ cellAt t r c = some cl := by
  unfold allCellsIndexed cellAt
  simp only [List.mem_flatMap, List.mem_map, List.mem_enum_iff_getElem?]
  constructor
  · rintro ⟨⟨i, row⟩, hrow, ⟨j, cell⟩, hcell, heq⟩
    simp only [Prod.mk.injEq] at heq
    obtain ⟨⟨rfl, rfl⟩, rfl⟩ := heq
    simp only at hrow hcell
    simp [hrow, hcell]
  · intro h
    cases hrow : t.rows[r]? with
    | none => rw [hrow] at h; exact absurd h (by simp)
    | some row =>
      rw [hrow] at h
      exact ⟨(r, row), hrow, (c, cl), h, rfl⟩

/-- find? returns the unique satisfier of its predicate. -/
theorem find_eq_some_of_unique {p : α → Bool} :
    ∀ {l : List α} {a : α}, a ∈ l → p a = true →
      (∀ b ∈ l, p b = true → b = a) → l.find? p = some a := by
  intro l
  induction l with
  | nil => intro a ha _ _; simp at ha
  | cons x l ih =>
    intro a ha hpa huniq
    cases hpx : p x with
    | true =>
      rw [List.find?_cons_of_pos _ hpx]
      rw [huniq x (List.mem_cons_self _ _) hpx]
    | false =>
      rw [List.find?_cons_of_neg _ (by simp [hpx])]
      rcases List.mem_cons.1 ha with rfl | hmem
      · rw [hpa] at hpx; cases hpx
      · exact ih hmem hpa fun b hb hpb => huniq b (List.mem_cons_of_mem _ hb) hpb

/-- An Option-valued mapM succeeds when every element maps to some. -/
theorem mapM_some_of_forall_some {f : α → Option β} :
    ∀ {l : List α}, (∀ a ∈ l, (f a).isSome) → ∃ out, l.mapM f = some out := by
  intro l
  induction l with
  | nil => intro _; exact ⟨[], rfl⟩
  | cons x l ih =>
    intro h
    obtain ⟨b, hb⟩ := Option.isSome_iff_exists.1 (h x (List.mem_cons_self x l))
    obtain ⟨out, hout⟩ := ih fun a ha => h a (List.mem_cons_of_mem _ ha)
    exact ⟨b :: out, by rw [List.mapM_cons, hb, hout]; rfl⟩

/-- Total number of cells of a table. -/
def totalCells (t : Table) : Nat :=
  (t.rows.map fun r => r.cells.length).sum

theorem map_length_mapWithIndexFrom (g : Nat → Nat → Cell → Cell) :
    ∀ (i : Nat) (rows : List Row),
      ((mapWithIndexFrom (fun r row =>
        { row with cells := mapWithIndex (fun c cl => g r c cl) row.cells }) i rows).map
          fun r => r.cells.length) = rows.map fun r => r.cells.length
  | _, [] => rfl
  | i, row :: rows => by
    simp only [mapWithIndexFrom, List.map_cons, mapWithIndex_length]
    exact congrArg _ (map_length_mapWithIndexFrom g (i + 1) rows)

/-- A pointwise cell rewrite never changes the number of cells. -/
theorem totalCells_pointwise (t : Table) (lk : Bool) (g : Nat → Nat → Cell → Cell) :
    totalCells { locked := lk, rows := mapWithIndex (fun r row =>
      { row with cells := mapWithIndex (fun c cl => g r c cl) row.cells }) t.rows } =
    totalCells t :=
  congrArg List.sum (map_length_mapWithIndexFrom g 0 t.rows)

/-- A pointwise cell rewrite never changes the number of rows. -/
theorem numRows_pointwise (t : Table) (lk : Bool) (g : Nat → Nat → Cell → Cell) :
    numRows { locked := lk, rows := mapWithIndex (fun r row =>
      { row with cells := mapWithIndex (fun c cl => g r c cl) row.cells }) t.rows } =
    numRows t :=
  mapWithIndex_length _ _

/-- A pointwise cell rewrite never changes the grid width. -/
theorem tableWidth_pointwise (t : Table) (lk : Bool) (g : Nat → Nat → Cell → Cell) :
    tableWidth { locked := lk, rows := mapWithIndex (fun r row =>
      { row with cells := mapWithIndex (fun c cl => g r c cl) row.cells }) t.rows } =
    tableWidth t := by
  unfold tableWidth mapWithIndex
  cases t.rows with
  | nil => rfl
  | cons row rows => simp [mapWithIndexFrom, mapWithIndexFrom_length]

/-- A pointwise rewrite of every cell of a table, keyed by grid coordinates —
the shape shared by the transactions of mergeInternal and unmergeInternal. -/
def pointwiseRewrite (g : Nat → Nat → Cell → Cell) (t : Table) : Table :=
  { locked := t.locked, rows := mapWithIndex (fun r row =>
      { row with cells := mapWithIndex (fun c cl => g r c cl) row.cells }) t.rows }

/-- The spanning origin cell installed by mergeInternal. -/
def mergedOriginCell (rect : Rect) (ocl : Cell) (mb : List Block) : Cell :=
  { attrs := { ocl.attrs with
      rmMergeOrigin := true
      rmMergedTo := none
      rmHideMode := none
      rmColspan := rect.right - rect.left
      rmRowspan := rect.bottom - rect.top }
    blocks := mb }

/-- The per-cell rewrite of a successful merge. -/
def gMerge (rect : Rect) (ocl : Cell) (oid : String) (mb : List Block)
    (r c : Nat) (cl : Cell) : Cell :=
  if inRect rect r c then
    (if r = rect.top ∧ c = rect.left then mergedOriginCell rect ocl mb
     else coveredCellOf oid rect.top r [emptyParagraph] cl)
  else cl

/-- The per-cell rewrite of a successful unmerge over the same rectangle. -/
def gUnmerge (rect : Rect) (oid : String) (r c : Nat) (n : Cell) : Cell :=
  if (decide (rect.top ≤ r) && decide (r < rect.bottom) &&
        decide (rect.left ≤ c) && decide (c < rect.right)) &&
      ((r == rect.top && c == rect.left) || n.attrs.rmMergedTo == some oid) then
    (if r = rect.top ∧ c = rect.left then
      { attrs := unmergeResetAttrs n.attrs, blocks := n.blocks }
     else { attrs := unmergeResetAttrs n.attrs, blocks := [emptyParagraph] })
  else n

theorem cellAt_pointwiseRewrite (g : Nat → Nat → Cell → Cell) (t : Table) (r c : Nat) :
    cellAt (pointwiseRewrite g t) r c = (cellAt t r c).map (g r c) :=
  cellAt_mapWithIndex t (fun r c cl => g r c cl) r c

theorem allCellsIndexed_pointwiseRewrite (g : Nat → Nat → Cell → Cell) (t : Table) :
    allCellsIndexed (pointwiseRewrite g t) =
      (allCellsIndexed t).map fun x => (x.1, g x.1.1 x.1.2 x.2) :=
  allCellsIndexed_pointwise t t.locked (fun r c cl => g r c cl)

theorem totalCells_pointwiseRewrite (g : Nat → Nat → Cell → Cell) (t : Table) :
    totalCells (pointwiseRewrite g t) = totalCells t :=
  totalCells_pointwise t t.locked (fun r c cl => g r c cl)

theorem numRows_pointwiseRewrite (g : Nat → Nat → Cell → Cell) (t : Table) :
    numRows (pointwiseRewrite g t) = numRows t :=
  numRows_pointwise t t.locked (fun r c cl => g r c cl)

theorem tableWidth_pointwiseRewrite (g : Nat → Nat → Cell → Cell) (t : Table) :
    tableWidth (pointwiseRewrite g t) = tableWidth t :=
  tableWidth_pointwise t t.locked (fun r c cl => g r c cl)

/-- A 2-by-2 merge over normal cells with an identified origin succeeds, and
the dispatched table is the pointwise rewrite installing the spanning origin
and the covered cells. -/
theorem merge_2x2_eq (t : Table) (rect : Rect) (ocl : Cell) (oid : String)
    (hw : rect.right = rect.left + 2) (hh : rect.bottom = rect.top + 2)
    (hnorm : ∀ rc ∈ rectCoords rect, ∃ cl, cellAt t rc.1 rc.2 = some cl ∧
      cl.attrs.rmColspan = 1 ∧ cl.attrs.rmRowspan = 1 ∧
      cl.attrs.rmMergeOrigin = false ∧ cl.attrs.rmMergedTo = none)
    (hocl : cellAt t rect.top rect.left = some ocl)
    (hoid : ocl.attrs.rmCellId = some oid) (hne : oid ≠ "") :
    ∃ mb, mergeInternal true t rect =
      .ok (some (pointwiseRewrite (gMerge rect ocl oid mb) t)) := by
  have hall : ∀ rc ∈ rectCoords rect,
      ((cellAt t rc.1 rc.2).map fun cl => (rc, cl)).isSome := by
    intro rc hrc
    obtain ⟨cl, hcl, -⟩ := hnorm rc hrc
    simp [hcl]
  obtain ⟨cells, hcells⟩ := mapM_some_of_forall_some hall
  obtain ⟨hfst, hfmap, hpt⟩ := mapM_pair_props hcells
  have hmem_props : ∀ x ∈ cells, cellAt t x.1.1 x.1.2 = some x.2 ∧
      x.2.attrs.rmColspan = 1 ∧ x.2.attrs.rmRowspan = 1 ∧
      x.2.attrs.rmMergeOrigin = false ∧ x.2.attrs.rmMergedTo = none := by
    intro x hx
    have hxrc : x.1 ∈ rectCoords rect := by
      rw [← hfst]
      exact List.mem_map_of_mem _ hx
    obtain ⟨cl, hcl, h1, h2, h3, h4⟩ := hnorm x.1 hxrc
    have hpx := hpt x hx
    rw [hpx] at hcl
    injection hcl with hcl2
    subst hcl2
    exact ⟨hpx, h1, h2, h3, h4⟩
  have hany1 : cells.any (fun x => strTruthy x.2.attrs.rmMergedTo) = false := by
    rw [List.any_eq_false]
    intro x hx
    obtain ⟨-, -, -, -, h4⟩ := hmem_props x hx
    simp [h4, strTruthy]
  have hany2 : cells.any (fun x => x.2.attrs.rmMergeOrigin &&
      (decide (1 < x.2.attrs.rmRowspan) || decide (1 < x.2.attrs.rmColspan))) = false := by
    rw [List.any_eq_false]
    intro x hx
    obtain ⟨-, -, -, h3, -⟩ := hmem_props x hx
    simp [h3]
  obtain ⟨tail, htail, htailne⟩ := @rectCoords_eq_cons rect (by omega) (by omega)
  obtain ⟨cl0, rest, rfl, hrest⟩ :
      ∃ cl0 rest, cells = ((rect.top, rect.left), cl0) :: rest ∧
        ∀ x ∈ rest, x.1 ≠ (rect.top, rect.left) := by
    cases cells with
    | nil =>
      simp at hfst
      rw [hfst] at htail
      exact absurd htail (by simp)
    | cons c0 rest2 =>
      rw [htail] at hfst
      simp only [List.map_cons, List.cons.injEq] at hfst
      refine ⟨c0.2, rest2, ?_, ?_⟩
      · rw [← hfst.1]
      · intro x hx
        have hxt : x.1 ∈ tail := by
          rw [← hfst.2]
          exact List.mem_map_of_mem _ hx
        exact htailne _ hxt
  have hocl2 : cl0 = ocl := by
    have h1 : cellAt t rect.top rect.left = some cl0 :=
      (hmem_props _ (List.mem_cons_self _ _)).1
    rw [hocl] at h1
    injection h1 with h
    exact h.symm
  subst hocl2
  have hfind : ((((rect.top, rect.left), cl0)) :: rest).find?
      (fun x => x.1.1 == rect.top && x.1.2 == rect.left) =
        some ((rect.top, rect.left), cl0) := by
    apply List.find?_cons_of_pos
    simp
  have hdim : ¬(rect.right - rect.left = 1 ∧ rect.bottom - rect.top = 1) := by omega
  simp only [mergeInternal]
  rw [if_neg hdim]
  simp only [hcells, hany1, hany2, Bool.false_eq_true, if_false, hfind, hoid]
  simp only [strTruthy, ne_eq, hne, not_false_eq_true, decide_True, Bool.not_true,
    Bool.false_eq_true, if_false, Option.getD_some, if_true]
  rw [← apply_ite Except.ok]
  simp only [emptyCellContent, if_pos, if_true]
  simp only [← hoid]
  exact ⟨_, rfl⟩

/-- Unmerging right after a successful 2-by-2 merge succeeds and resets the
rectangle via the gUnmerge pointwise rewrite. -/
theorem unmerge_after_merge_2x2 (t : Table) (rect : Rect) (ocl : Cell) (oid : String)
    (mb : List Block)
    (hw : rect.right = rect.left + 2) (hh : rect.bottom = rect.top + 2)
    (hwidth : rect.left + 2 ≤ tableWidth t)
    (hrows : rect.bottom ≤ numRows t)
    (hocl : cellAt t rect.top rect.left = some ocl)
    (hoid : ocl.attrs.rmCellId = some oid) (hne : oid ≠ "")
    (huniq : ∀ x ∈ allCellsIndexed t, x.2.attrs.rmCellId = some oid →
      x.1 = (rect.top, rect.left)) :
    unmergeInternal true (pointwiseRewrite (gMerge rect ocl oid mb) t)
        (rect.top, rect.left) (rect.top, rect.left) =
      .ok (some (pointwiseRewrite (gUnmerge rect oid)
        (pointwiseRewrite (gMerge rect ocl oid mb) t))) := by
  have hin0 : inRect rect rect.top rect.left = true :=
    inRect_eq_true.2 ⟨le_refl _, by omega, le_refl _, by omega⟩
  have himg : gMerge rect ocl oid mb rect.top rect.left ocl =
      mergedOriginCell rect ocl mb := by
    unfold gMerge
    rw [if_pos hin0, if_pos ⟨rfl, rfl⟩]
  have hanchor : cellAt (pointwiseRewrite (gMerge rect ocl oid mb) t) rect.top rect.left =
      some (mergedOriginCell rect ocl mb) := by
    rw [cellAt_pointwiseRewrite, hocl, Option.map_some', himg]
  have hpick : pickOriginId (mergedOriginCell rect ocl mb) = some oid := by
    unfold pickOriginId mergedOriginCell
    simp only [strTruthy, Bool.false_eq_true, if_false]
    rw [if_pos]
    · exact hoid
    · simp only [Bool.and_eq_true, Bool.or_eq_true, decide_eq_true_eq]
      exact ⟨trivial, Or.inl (by omega)⟩
  have hmemT1 : ((rect.top, rect.left), mergedOriginCell rect ocl mb) ∈
      allCellsIndexed (pointwiseRewrite (gMerge rect ocl oid mb) t) := by
    rw [allCellsIndexed_pointwiseRewrite]
    refine List.mem_map.2 ⟨((rect.top, rect.left), ocl), mem_allCellsIndexed.2 hocl, ?_⟩
    show ((rect.top, rect.left), gMerge rect ocl oid mb rect.top rect.left ocl) = _
    rw [himg]
  have hfindo : findOriginLoc (pointwiseRewrite (gMerge rect ocl oid mb) t) oid =
      some ((rect.top, rect.left), mergedOriginCell rect ocl mb) := by
    unfold findOriginLoc
    refine find_eq_some_of_unique hmemT1 ?_ ?_
    · unfold mergedOriginCell
      simp [hoid]
    · intro b hb hpb
      rw [allCellsIndexed_pointwiseRewrite] at hb
      obtain ⟨x, hx, rfl⟩ := List.mem_map.1 hb
      simp only [Bool.and_eq_true, Bool.or_eq_true, beq_iff_eq] at hpb
      by_cases hx1 : x.1 = (rect.top, rect.left)
      · have hx' : ((rect.top, rect.left), x.2) ∈ allCellsIndexed t := by
          rw [← hx1]
          exact hx
        have hcx := mem_allCellsIndexed.1 hx'
        rw [hocl] at hcx
        injection hcx with hcx2
        show (x.1, gMerge rect ocl oid mb x.1.1 x.1.2 x.2) = _
        rw [hx1, ← hcx2]
        show ((rect.top, rect.left), gMerge rect ocl oid mb rect.top rect.left ocl) = _
        rw [himg]
      · exfalso
        have hneq : ¬(x.1.1 = rect.top ∧ x.1.2 = rect.left) := fun hc =>
          hx1 (Prod.ext hc.1 hc.2)
        have hid : x.2.attrs.rmCellId = some oid := by
          have hid0 : (gMerge rect ocl oid mb x.1.1 x.1.2 x.2).attrs.rmCellId = some oid :=
            hpb.1
          unfold gMerge coveredCellOf at hid0
          by_cases hin : inRect rect x.1.1 x.1.2 = true
          · rw [if_pos hin, if_neg hneq] at hid0
            exact hid0
          · rw [if_neg hin] at hid0
            exact hid0
        exact hx1 (huniq x hx hid)
  have hspan_guard : ¬((mergedOriginCell rect ocl mb).attrs.rmColspan ≤ 1 ∧
      (mergedOriginCell rect ocl mb).attrs.rmRowspan ≤ 1) := by
    unfold mergedOriginCell
    simp only [not_and]
    intro h
    omega
  have hbotm : min (rect.top + (mergedOriginCell rect ocl mb).attrs.rmRowspan)
      (numRows (pointwiseRewrite (gMerge rect ocl oid mb) t)) = rect.bottom := by
    rw [numRows_pointwiseRewrite]
    show min (rect.top + (rect.bottom - rect.top)) (numRows t) = rect.bottom
    omega
  have hrightm : min (rect.left + (mergedOriginCell rect ocl mb).attrs.rmColspan)
      (tableWidth (pointwiseRewrite (gMerge rect ocl oid mb) t)) = rect.right := by
    rw [tableWidth_pointwiseRewrite]
    show min (rect.left + (rect.right - rect.left)) (tableWidth t) = rect.right
    omega
  have hguard : ((allCellsIndexed (pointwiseRewrite (gMerge rect ocl oid mb) t)).any fun x =>
      (decide (rect.top ≤ x.1.1) && decide (x.1.1 < rect.bottom) &&
        decide (rect.left ≤ x.1.2) && decide (x.1.2 < rect.right)) &&
      ((x.1.1 == rect.top && x.1.2 == rect.left) ||
        x.2.attrs.rmMergedTo == some oid)) = true := by
    refine List.any_eq_true.2 ⟨_, hmemT1, ?_⟩
    simp only [Bool.and_eq_true, Bool.or_eq_true, decide_eq_true_eq, beq_iff_eq]
    exact ⟨⟨⟨⟨le_refl _, by omega⟩, le_refl _⟩, by omega⟩, Or.inl ⟨trivial, trivial⟩⟩
  simp only [unmergeInternal, hanchor, hpick]
  simp only [strTruthy, ne_eq, hne, not_false_eq_true, decide_True, Bool.not_true,
    Bool.false_eq_true, if_false, Option.getD_some, if_true]
  simp only [hfindo]
  rw [if_neg hspan_guard]
  simp only [emptyCellContent, if_true, hbotm, hrightm, hguard, Bool.not_true,
    Bool.false_eq_true, if_false]
  rfl

/-- C5: merging a 2-by-2 rectangle of normal (unmerged, 1-by-1) cells and then
unmerging it restores rmColspan = 1 and rmRowspan = 1 on all four cells and
yields a table with the same number of rows and cells as before the merge. -/
theorem c5_round_trip (t : Table) (rect : Rect) (ocl : Cell) (oid : String)
    (hw : rect.right = rect.left + 2) (hh : rect.bottom = rect.top + 2)
    (hwidth : rect.left + 2 ≤ tableWidth t)
    (hnorm : ∀ rc ∈ rectCoords rect, ∃ cl, cellAt t rc.1 rc.2 = some cl ∧
      cl.attrs.rmColspan = 1 ∧ cl.attrs.rmRowspan = 1 ∧
      cl.attrs.rmMergeOrigin = false ∧ cl.attrs.rmMergedTo = none)
    (hocl : cellAt t rect.top rect.left = some ocl)
    (hoid : ocl.attrs.rmCellId = some oid) (hne : oid ≠ "")
    (huniq : ∀ x ∈ allCellsIndexed t, x.2.attrs.rmCellId = some oid →
      x.1 = (rect.top, rect.left)) :
    ∃ t1 t2, mergeInternal true t rect = .ok (some t1) ∧
      unmergeInternal true t1 (rect.top, rect.left) (rect.top, rect.left) = .ok (some t2) ∧
      (∀ rc ∈ rectCoords rect, ∃ cl, cellAt t2 rc.1 rc.2 = some cl ∧
        cl.attrs.rmColspan = 1 ∧ cl.attrs.rmRowspan = 1) ∧
      numRows t2 = numRows t ∧ totalCells t2 = totalCells t := by
  have hrows : rect.bottom ≤ numRows t := by
    obtain ⟨cl, hcl, -⟩ := hnorm (rect.top + 1, rect.left)
      (mem_rectCoords.2 ⟨by omega, by omega, by omega, by omega⟩)
    unfold cellAt at hcl
    cases hr : t.rows[rect.top + 1]? with
    | none => rw [hr] at hcl; exact absurd hcl (by simp)
    | some row =>
      have hlt : rect.top + 1 < t.rows.length := by
        by_contra hge
        rw [List.getElem?_eq_none (by omega)] at hr
        cases hr
      unfold numRows
      omega
  obtain ⟨mb, hmerge⟩ := merge_2x2_eq t rect ocl oid hw hh hnorm hocl hoid hne
  have hunmerge := unmerge_after_merge_2x2 t rect ocl oid mb hw hh hwidth hrows hocl
    hoid hne huniq
  refine ⟨_, _, hmerge, hunmerge, ?_, ?_, ?_⟩
  · intro rc hrc
    obtain ⟨cl, hcl, -, -, -, -⟩ := hnorm rc hrc
    have hbounds := mem_rectCoords.1 hrc
    have hin : inRect rect rc.1 rc.2 = true := inRect_eq_true.2 hbounds
    rw [cellAt_pointwiseRewrite, cellAt_pointwiseRewrite, hcl]
    simp only [Option.map_some']
    refine ⟨_, rfl, ?_⟩
    by_cases hrc0 : rc.1 = rect.top ∧ rc.2 = rect.left
    · have hgm : gMerge rect ocl oid mb rc.1 rc.2 cl = mergedOriginCell rect ocl mb := by
        unfold gMerge
        rw [if_pos hin, if_pos hrc0]
      rw [hgm]
      unfold gUnmerge
      have hcond : ((decide (rect.top ≤ rc.1) && decide (rc.1 < rect.bottom) &&
          decide (rect.left ≤ rc.2) && decide (rc.2 < rect.right)) &&
          ((rc.1 == rect.top && rc.2 == rect.left) ||
            (mergedOriginCell rect ocl mb).attrs.rmMergedTo == some oid)) = true := by
        simp only [Bool.and_eq_true, Bool.or_eq_true, decide_eq_true_eq, beq_iff_eq]
        exact ⟨⟨⟨⟨hbounds.1, hbounds.2.1⟩, hbounds.2.2.1⟩, hbounds.2.2.2⟩,
          Or.inl ⟨hrc0.1, hrc0.2⟩⟩
      rw [if_pos hcond, if_pos hrc0]
      exact ⟨rfl, rfl⟩
    · have hgm : gMerge rect ocl oid mb rc.1 rc.2 cl =
          coveredCellOf oid rect.top rc.1 [emptyParagraph] cl := by
        unfold gMerge
        rw [if_pos hin, if_neg hrc0]
      rw [hgm]
      unfold gUnmerge
      have hcond : ((decide (rect.top ≤ rc.1) && decide (rc.1 < rect.bottom) &&
          decide (rect.left ≤ rc.2) && decide (rc.2 < rect.right)) &&
          ((rc.1 == rect.top && rc.2 == rect.left) ||
            (coveredCellOf oid rect.top rc.1 [emptyParagraph] cl).attrs.rmMergedTo ==
              some oid)) = true := by
        simp only [Bool.and_eq_true, Bool.or_eq_true, decide_eq_true_eq, beq_iff_eq]
        exact ⟨⟨⟨⟨hbounds.1, hbounds.2.1⟩, hbounds.2.2.1⟩, hbounds.2.2.2⟩, Or.inr rfl⟩
      rw [if_pos hcond, if_neg hrc0]
      exact ⟨rfl, rfl⟩
  · rw [numRows_pointwiseRewrite, numRows_pointwiseRewrite]
  · rw [totalCells_pointwiseRewrite, totalCells_pointwiseRewrite]

/-- The third demo cell for the round-trip table. -/
def demoCellC : Cell := { attrs := normalAttrs "c", blocks := [emptyParagraph] }

/-- The fourth demo cell for the round-trip table. -/
def demoCellD : Cell := { attrs := normalAttrs "d", blocks := [emptyParagraph] }

/-- A 2-by-2 table of four normal cells. -/
def c5DemoTable : Table :=
  { locked := false
    rows := [{ rmRowId := none
               rmLinkedPrev := none
               rmLinkedNext := none
               cells := [demoCellA, demoCellB] },
             { rmRowId := none
               rmLinkedPrev := none
               rmLinkedNext := none
               cells := [demoCellC, demoCellD] }] }

/-- The full 2-by-2 selection rectangle over the round-trip demo table. -/
def c5Rect : Rect := { top := 0, left := 0, bottom := 2, right := 2 }

/-- Witness for C5 at a concrete input: merge-then-unmerge on the concrete
2-by-2 table restores 1-by-1 spans everywhere and keeps the cell count. -/
theorem c5_witness :
    ∃ t1 t2, mergeInternal true c5DemoTable c5Rect = .ok (some t1) ∧
      unmergeInternal true t1 (c5Rect.top, c5Rect.left) (c5Rect.top, c5Rect.left) =
        .ok (some t2) ∧
      (∀ rc ∈ rectCoords c5Rect, ∃ cl, cellAt t2 rc.1 rc.2 = some cl ∧
        cl.attrs.rmColspan = 1 ∧ cl.attrs.rmRowspan = 1) ∧
      numRows t2 = numRows c5DemoTable ∧ totalCells t2 = totalCells c5DemoTable := by
  refine c5_round_trip c5DemoTable c5Rect demoCellA "a" rfl rfl (by decide) ?_ rfl rfl
    (by decide) (by decide)
  intro rc hrc
  have hlist : rectCoords c5Rect = [(0, 0), (0, 1), (1, 0), (1, 1)] := rfl
  rw [hlist] at hrc
  simp only [List.mem_cons, List.not_mem_nil, or_false] at hrc
  rcases hrc with rfl | rfl | rfl | rfl
  · exact ⟨demoCellA, rfl, rfl, rfl, rfl, rfl⟩
  · exact ⟨demoCellB, rfl, rfl, rfl, rfl, rfl⟩
  · exact ⟨demoCellC, rfl, rfl, rfl, rfl, rfl⟩
  · exact ⟨demoCellD, rfl, rfl, rfl, rfl, rfl⟩

/-! ### C1 -/

/-- Locating a row by id in a one-table, two-row document. -/
theorem findRowLocById_pair (lk : Bool) (r1 r2 : Row) (id : String)
    (h1 : (r1.rmRowId == some id) = false) (h2 : (r2.rmRowId == some id) = true) :
    findRowLocById [{ locked := lk, rows := [r1, r2] }] id = some ((0, 1), r2) := by
  show (([(((0 : Nat), (0 : Nat)), r1), (((0 : Nat), (1 : Nat)), r2)]).find?
    fun x => x.2.rmRowId == some id) = _
  rw [List.find?_cons_of_neg _ (by simp [h1])]
  rw [List.find?_cons_of_pos _ (by simp [h2])]

/-- Locating a row by id in a one-table, one-row document. -/
theorem findRowLocById_single (lk : Bool) (r1 : Row) (id : String)
    (h1 : (r1.rmRowId == some id) = true) :
    findRowLocById [{ locked := lk, rows := [r1] }] id = some ((0, 0), r1) := by
  show (([(((0 : Nat), (0 : Nat)), r1)]).find? fun x => x.2.rmRowId == some id) = _
  rw [List.find?_cons_of_pos _ (by simp [h1])]


/-- Splitting an inline sequence loses no text: the concatenated text of the
two parts is the text of the original sequence. -/
theorem splitInlinesAt_textContent : ∀ (l : List Inline) (n : Nat),
    ((splitInlinesAt l n).1.map Inline.textOf).flatten ++
      ((splitInlinesAt l n).2.map Inline.textOf).flatten =
      (l.map Inline.textOf).flatten := by
  intro l
  induction l with
  | nil => intro n; cases n <;> simp [splitInlinesAt]
  | cons i rest ih =>
    intro n
    cases n with
    | zero => simp [splitInlinesAt]
    | succ m =>
      cases i with
      | text s =>
        simp only [splitInlinesAt]
        by_cases h : m + 1 < s.length
        · simp only [h, if_true, List.map_cons, List.map_nil, List.flatten_cons,
            List.flatten_nil, Inline.textOf, List.append_nil]
          rw [← List.append_assoc, List.take_append_drop]
        · simp only [h, if_false]
          simp [Inline.textOf, List.append_assoc, ih (m + 1 - s.length)]
      | hardBreak => simp [splitInlinesAt, Inline.textOf, List.append_assoc, ih m]
      | leaf nm => simp [splitInlinesAt, Inline.textOf, List.append_assoc, ih m]

/-- Splitting an inline sequence loses no node: the content sizes of the two
parts add up to the original size. -/
theorem splitInlinesAt_size : ∀ (l : List Inline) (n : Nat),
    inlinesSize (splitInlinesAt l n).1 + inlinesSize (splitInlinesAt l n).2 =
      inlinesSize l := by
  intro l
  induction l with
  | nil => intro n; cases n <;> simp [splitInlinesAt, inlinesSize]
  | cons i rest ih =>
    intro n
    cases n with
    | zero => simp [splitInlinesAt, inlinesSize]
    | succ m =>
      cases i with
      | text s =>
        simp only [splitInlinesAt]
        by_cases h : m + 1 < s.length
        · simp only [h, if_true, inlinesSize, List.map_cons, List.map_nil, List.sum_cons,
            List.sum_nil, Inline.size]
          rw [List.length_take, List.length_drop]
          omega
        · simp only [h, if_false, inlinesSize, List.map_cons, List.sum_cons, Inline.size]
          have := ih (m + 1 - s.length)
          simp only [inlinesSize] at this
          omega
      | hardBreak =>
        simp only [splitInlinesAt, inlinesSize, List.map_cons, List.sum_cons, Inline.size]
        have := ih m
        simp only [inlinesSize] at this
        omega
      | leaf nm =>
        simp only [splitInlinesAt, inlinesSize, List.map_cons, List.sum_cons, Inline.size]
        have := ih m
        simp only [inlinesSize] at this
        omega

/-- A paragraph holding the text abcd — the block the split point falls
inside. -/
def c1Block0 : Block :=
  { name := "paragraph", isTextblock := true, inlines := [Inline.text ['a', 'b', 'c', 'd']] }

/-- A paragraph holding the text xy — a block sitting AFTER the split
block. -/
def c1Block1 : Block :=
  { name := "paragraph", isTextblock := true, inlines := [Inline.text ['x', 'y']] }

/-- The overflowing origin cell of the counterexample. -/
def c1Cell : Cell := { attrs := normalAttrs "c0", blocks := [c1Block0, c1Block1] }

/-- Its row: no linkedNext yet, so pagination creates the continuation. -/
def c1Row : Row :=
  { rmRowId := some "r1"
    rmLinkedPrev := none
    rmLinkedNext := none
    cells := [c1Cell] }

def c1Doc : Doc := [{ locked := false, rows := [c1Row] }]

/-- What one paginate invocation at inline split (block 0, offset 2) actually
produces on c1Doc. -/
def c1ResultDoc : Doc :=
  [{ locked := false
     rows := [{ rmRowId := some "r1"
                rmLinkedPrev := none
                rmLinkedNext := some "n1"
                cells := [{ attrs := normalAttrs "c0"
                            blocks := [{ name := "paragraph", isTextblock := true,
                                         inlines := [Inline.text ['a', 'b']] },
                                       c1Block1] }] },
              { rmRowId := some "n1"
                rmLinkedPrev := some "r1"
                rmLinkedNext := none
                cells := [{ attrs := freshCellAttrs
                            blocks := [{ name := "paragraph", isTextblock := true,
                                         inlines := [Inline.text ['c', 'd']] }] }] }] }]

/-- C1 counterexample: an inline split inside block 0 of a two-block cell
moves only the tail of that textblock to the continuation row — the block
after it stays in the origin cell — so concatenating the origin cell's
remaining content with the continuation cell's content does NOT reproduce the
origin cell's original content (the text xy now sits before cd instead of
after it). -/
theorem c1_counterexample :
    paginateCore c1Doc { tableIdx := 0, rowIdx := 0, cellIdx := 0 } true
        (.inlineSplit 0 2) "rf" "n1" = some c1ResultDoc ∧
    ((getRowAt c1ResultDoc (0, 0)).bind fun r => r.cells[0]?).map cellTextContent =
      some ['a', 'b', 'x', 'y'] ∧
    ((getRowAt c1ResultDoc (0, 1)).bind fun r => r.cells[0]?).map cellTextContent =
      some ['c', 'd'] ∧
    cellTextContent c1Cell = ['a', 'b', 'c', 'd', 'x', 'y'] ∧
    ['a', 'b', 'x', 'y'] ++ ['c', 'd'] ≠ ['a', 'b', 'c', 'd', 'x', 'y'] := by
  refine ⟨rfl, rfl, rfl, rfl, by decide⟩

/-- C1 amended: one paginate invocation on an overflowing, unlocked cell
creates exactly one continuation row — only when the row has no linkedNext
yet — linked both ways to the origin row, and moves the computed tail into
the same column of the continuation row (prepending when the target cell is
not a fresh placeholder).  No content is lost, but the spec's concatenation
law holds per split kind: a block split moves the trailing blocks, so
origin-remaining ++ moved = original; an inline split moves only the tail of
the split textblock — blocks after it stay in the origin cell — preserving
that block's text and the total inline size. -/
theorem c1_paginate_amended (curRow : Row) (cell : Cell) (ci : Nat) (sp : SplitSpec)
    (remaining moved : List Block) (rid nid fo : String)
    (hrtrim : strTrim rid = rid) (hrne : rid ≠ "") (hnne : nid ≠ "")
    (hne : rid ≠ nid)
    (hcurid : curRow.rmRowId = some rid)
    (hcell : curRow.cells[ci]? = some cell)
    (hsplit : applySplit cell sp = some (remaining, moved)) :
    (curRow.rmLinkedNext = none →
      paginateCore [{ locked := false, rows := [curRow] }]
          { tableIdx := 0, rowIdx := 0, cellIdx := ci } true sp fo nid =
        some [{ locked := false
                rows := [{ curRow with
                            rmRowId := some rid
                            rmLinkedNext := some nid
                            cells := updateNth curRow.cells ci fun c =>
                              { c with blocks := remaining } },
                          { buildEmptyLinkedRow curRow nid (some rid) with
                            cells := updateNth (buildEmptyLinkedRow curRow nid
                                (some rid)).cells ci fun c =>
                              { c with blocks := moved } }] }]) ∧
    (∀ (nextRow : Row) (ncell : Cell),
      curRow.rmLinkedNext = some nid →
      nextRow.rmRowId = some nid →
      nextRow.rmLinkedPrev = some rid →
      nextRow.cells[ci]? = some ncell →
      paginateCore [{ locked := false, rows := [curRow, nextRow] }]
          { tableIdx := 0, rowIdx := 0, cellIdx := ci } true sp fo nid =
        some [{ locked := false
                rows := [{ curRow with
                            rmRowId := some rid
                            cells := updateNth curRow.cells ci fun c =>
                              { c with blocks := remaining } },
                          { nextRow with
                            cells := updateNth nextRow.cells ci fun c =>
                              { c with blocks :=
                                  if isEmptyPlaceholderCell ncell then moved
                                  else moved ++ ncell.blocks } }] }]) ∧
    (∀ (cell2 : Cell) (k : Nat) (rem mov : List Block),
      applySplit cell2 (.blockSplit k) = some (rem, mov) →
      rem ++ mov = cell2.blocks ∧ mov ≠ []) ∧
    (∀ (cell2 : Cell) (bi off : Nat) (rem mov : List Block),
      applySplit cell2 (.inlineSplit bi off) = some (rem, mov) → ∃ b,
        cell2.blocks[bi]? = some b ∧ b.isTextblock = true ∧
        rem = cell2.blocks.set bi { b with inlines := (splitInlinesAt b.inlines off).1 } ∧
        mov = [{ name := b.name, isTextblock := b.isTextblock,
                 inlines := (splitInlinesAt b.inlines off).2 }] ∧
        Block.textContent { b with inlines := (splitInlinesAt b.inlines off).1 } ++
          Block.textContent
            { name := b.name
              isTextblock := b.isTextblock
              inlines := (splitInlinesAt b.inlines off).2 } = Block.textContent b ∧
        inlinesSize (splitInlinesAt b.inlines off).1 +
          inlinesSize (splitInlinesAt b.inlines off).2 = inlinesSize b.inlines) := by
  have hens : ensureRowId curRow.rmRowId fo = rid := by
    rw [hcurid]
    simp [ensureRowId, hrtrim, hrne]
  have hbeqRN : (some rid == some nid) = false := by
    simp [hne]
  refine ⟨?_, ?_, ?_, ?_⟩
  · intro hnonext
    simp only [paginateCore, List.getElem?_cons_zero, hcell, hsplit, Bool.false_eq_true,
      if_false, Bool.not_true, hens, hnonext, strTruthy, Bool.not_false, if_true,
      Option.getD_none]
    simp only [insertRowAt, updateRowAt, updateCellAt, updateNth, insertNth,
      List.take_succ_cons, List.take_zero, List.drop_succ_cons, List.drop_zero,
      List.cons_append, List.append_eq, List.nil_append]
    rw [findRowLocById_pair false _ _ nid hbeqRN (by simp [buildEmptyLinkedRow])]
    simp only [buildEmptyLinkedRow, ne_eq, eq_self_iff_true, not_true_eq_false,
      if_false, getRowAt, List.getElem?_cons_zero, List.getElem?_cons_succ,
      Option.some_bind, List.getElem?_map, hcell, Option.map_some']
    simp only [isEmptyPlaceholderCell, emptyParagraph, Bool.and_self, List.isEmpty_nil,
      if_true, updateRowAt, updateCellAt, updateNth]
  · intro nextRow ncell hnext hnid hnprev hncell
    simp only [paginateCore, List.getElem?_cons_zero, List.getElem?_cons_succ, hcell,
      hsplit, Bool.false_eq_true, if_false, Bool.not_true, hens, hnext, strTruthy,
      ne_eq, hnne, not_false_eq_true, decide_True, Bool.not_true, Bool.false_eq_true,
      if_false, Option.getD_some]
    simp only [updateRowAt, updateCellAt, updateNth]
    rw [findRowLocById_pair false _ _ nid]
    · simp only [hnprev, ne_eq, eq_self_iff_true, not_true_eq_false, if_false, getRowAt,
        List.getElem?_cons_zero, List.getElem?_cons_succ, Option.some_bind, hncell,
        updateRowAt, updateCellAt, updateNth]
      simp [hcurid, hnid, hnprev, hnext]
    · exact hbeqRN
    · show (nextRow.rmRowId == some nid) = true
      rw [hnid]
      simp
  · intro cell2 k rem mov h
    simp only [applySplit] at h
    split at h
    · exact absurd h (by simp)
    · rename_i hlen
      simp only [Option.some.injEq, Prod.mk.injEq] at h
      obtain ⟨rfl, rfl⟩ := h
      refine ⟨List.take_append_drop _ _, ?_⟩
      intro hnil
      rw [List.drop_eq_nil_iff] at hnil
      omega
  · intro cell2 bi off rem mov h
    simp only [applySplit] at h
    cases hb : cell2.blocks[bi]? with
    | none => rw [hb] at h; exact absurd h (by simp)
    | some b =>
      rw [hb] at h
      simp only at h
      split at h
      · exact absurd h (by simp)
      · split at h
        · exact absurd h (by simp)
        · rename_i htb hoff
          simp only [Option.some.injEq, Prod.mk.injEq] at h
          obtain ⟨rfl, rfl⟩ := h
          refine ⟨b, rfl, ?_, rfl, rfl, splitInlinesAt_textContent b.inlines off,
            splitInlinesAt_size b.inlines off⟩
          simpa using htb

/-- Witness for C1 amended at a concrete input: paginating the two-block cell
at inline split (0, 2) creates the one linked continuation row and produces
exactly the predicted document. -/
theorem c1_witness :
    paginateCore [{ locked := false, rows := [c1Row] }]
        { tableIdx := 0, rowIdx := 0, cellIdx := 0 } true (.inlineSplit 0 2) "rf" "n1" =
      some [{ locked := false
              rows := [{ c1Row with
                          rmRowId := some "r1"
                          rmLinkedNext := some "n1"
                          cells := updateNth c1Row.cells 0 fun c =>
                            { c with blocks :=
                                [{ name := "paragraph", isTextblock := true,
                                   inlines := [Inline.text ['a', 'b']] },
                                 c1Block1] } },
                        { buildEmptyLinkedRow c1Row "n1" (some "r1") with
                          cells := updateNth
                            (buildEmptyLinkedRow c1Row "n1" (some "r1")).cells 0 fun c =>
                              { c with blocks :=
                                  [{ name := "paragraph", isTextblock := true,
                                     inlines := [Inline.text ['c', 'd']] }] } }] }] :=
  (c1_paginate_amended c1Row c1Cell 0 (.inlineSplit 0 2)
    [{ name := "paragraph", isTextblock := true, inlines := [Inline.text ['a', 'b']] },
     c1Block1]
    [{ name := "paragraph", isTextblock := true, inlines := [Inline.text ['c', 'd']] }]
    "r1" "n1" "rf" rfl (by decide) (by decide) (by decide) rfl rfl rfl).1 rfl

/-! ### C6 -/

/-- The current row of the backward-layout counterexample: its continuation
row lies EARLIER in the document. -/
def c6RowA : Row :=
  { rmRowId := some "A"
    rmLinkedPrev := none
    rmLinkedNext := some "B"
    cells := [{ attrs := normalAttrs "x"
                blocks := [{ name := "paragraph", isTextblock := true,
                             inlines := [Inline.text ['h', 'i']] }] }] }

/-- The empty continuation row of the counterexample, placed before its
origin row. -/
def c6EmptyRowB : Row :=
  { rmRowId := some "B"
    rmLinkedPrev := some "A"
    rmLinkedNext := none
    cells := [{ attrs := normalAttrs "y", blocks := [emptyParagraph] }] }

/-- The backward-layout document. -/
def c6BackDoc : Doc := [{ locked := false, rows := [c6EmptyRowB, c6RowA] }]

/-- C6 counterexample: when the empty continuation row precedes the current
row in document order, merge-back deletes it but does NOT relink — the
current row keeps its dangling rmLinkedNext ("B") instead of inheriting the
continuation's rmLinkedNext (none), because the positional markup update
operates on a stale pre-deletion position. -/
theorem c6_counterexample :
    maybeMergeBackActiveCell c6BackDoc { tableIdx := 0, rowIdx := 1, cellIdx := 0 }
        false 100 0 = some [{ locked := false, rows := [c6RowA] }] ∧
    c6RowA.rmLinkedNext = some "B" ∧
    ∀ r ∈ allRows [({ locked := false, rows := [c6RowA] } : Table)],
      r.rmRowId ≠ some "B" := by
  refine ⟨rfl, rfl, ?_⟩
  decide

/-- C6 amended: on a two-row chain (current row followed by its linked
continuation row), a merge-back invocation with spare capacity at least
MERGE_BACK_MIN_FREE_PX behaves as follows.  If the continuation row is
already completely empty (and is the chain tail), it is deleted and the
current row's rmLinkedNext is cleared.  Otherwise only the first meaningful
block of the aligned continuation cell is examined, and when its height plus
MERGE_BACK_BUFFER_PX fits in the spare capacity that block moves WHOLE to the
end of the current cell (replacing the placeholder), the continuation cell
loses exactly that block and nothing else changes; if that removal leaves the
continuation row completely empty (and it is the chain tail) the row is also
deleted and the current row's rmLinkedNext cleared. -/
theorem c6_merge_back_amended
    (curRow nextRow : Row) (originCell : Cell) (ci : Nat) (cap bh : Int)
    (curId nextId : String)
    (hctrim : strTrim curId = curId) (hcne : curId ≠ "")
    (hntrim : strTrim nextId = nextId) (hnne : nextId ≠ "")
    (hcurid : curRow.rmRowId = some curId)
    (hcurnext : curRow.rmLinkedNext = some nextId)
    (hne : curId ≠ nextId)
    (hnextid : nextRow.rmRowId = some nextId)
    (hnextprev : nextRow.rmLinkedPrev = some curId)
    (hcell : curRow.cells[ci]? = some originCell)
    (hncell : (nextRow.cells[ci]?).isSome = true)
    (hcap : mergeBackMinFreePx ≤ cap) :
    (isRowCompletelyEmpty nextRow = true → nextRow.rmLinkedNext = none →
      maybeMergeBackActiveCell [{ locked := false, rows := [curRow, nextRow] }]
          { tableIdx := 0, rowIdx := 0, cellIdx := ci } false cap bh =
        some [{ locked := false,
                rows := [{ curRow with rmLinkedNext := none }] }]) ∧
    (∀ nextCell idx blk,
      isRowCompletelyEmpty nextRow = false →
      nextRow.cells[ci]? = some nextCell →
      getFirstMeaningfulBlockIndex nextCell = some idx →
      nextCell.blocks[idx]? = some blk →
      bh + mergeBackBufferPx ≤ cap →
      (isRowCompletelyEmpty { nextRow with cells := updateNth nextRow.cells ci fun c =>
          { c with blocks := removeNth c.blocks idx } } = false →
        maybeMergeBackActiveCell [{ locked := false, rows := [curRow, nextRow] }]
            { tableIdx := 0, rowIdx := 0, cellIdx := ci } false cap bh =
          some [{ locked := false,
                  rows := [{ curRow with cells := updateNth curRow.cells ci fun c =>
                      { c with blocks :=
                          if isEmptyPlaceholderCell originCell then [blk]
                          else c.blocks ++ [blk] } },
                    { nextRow with cells := updateNth nextRow.cells ci fun c =>
                      { c with blocks := removeNth c.blocks idx } }] }]) ∧
      (isRowCompletelyEmpty { nextRow with cells := updateNth nextRow.cells ci fun c =>
          { c with blocks := removeNth c.blocks idx } } = true →
        nextRow.rmLinkedNext = none →
        maybeMergeBackActiveCell [{ locked := false, rows := [curRow, nextRow] }]
            { tableIdx := 0, rowIdx := 0, cellIdx := ci } false cap bh =
          some [{ locked := false,
                  rows := [{ curRow with
                      rmLinkedNext := none
                      cells := updateNth curRow.cells ci fun c =>
                        { c with blocks :=
                            if isEmptyPlaceholderCell originCell then [blk]
                            else c.blocks ++ [blk] } }] }])) := by
  have hasn : asStringOrNull (some curId) = some curId := by
    simp [asStringOrNull, hctrim, hcne]
  have hasnN : asStringOrNull (some nextId) = some nextId := by
    simp [asStringOrNull, hntrim, hnne]
  have hbeqCN : (some curId == some nextId) = false := by
    simp [hne]
  have hfindN : findRowLocById [{ locked := false, rows := [curRow, nextRow] }] nextId =
      some ((0, 1), nextRow) := by
    refine findRowLocById_pair false curRow nextRow nextId ?_ ?_
    · rw [hcurid]
      exact hbeqCN
    · rw [hnextid]
      simp
  have hneg18 : ¬(cap < mergeBackMinFreePx) := by omega
  refine ⟨?_, ?_⟩
  · intro hempty hnn
    obtain ⟨nc, hnc⟩ := Option.isSome_iff_exists.1 hncell
    have hnnasn : asStringOrNull nextRow.rmLinkedNext = none := by
      rw [hnn]
      rfl
    simp only [maybeMergeBackActiveCell, List.getElem?_cons_zero, List.getElem?_cons_succ,
      hcell, hcurid, hcurnext, hasn, hasnN, Bool.false_eq_true, if_false]
    rw [if_neg hneg18]
    simp only [hfindN, hnextprev, hasn, hnc]
    simp only [Option.isSome_some, ne_eq, not_true_eq_false, decide_False, Bool.and_false,
      Bool.false_eq_true, if_false, hempty, if_true]
    simp only [deleteRowIfEmptyAndRelink, getRowAt, List.getElem?_cons_zero,
      List.getElem?_cons_succ, hempty, Bool.not_true, Bool.false_eq_true, if_false,
      hnnasn]
    simp [locLt, deleteRowAt, updateRowAt, updateNth, removeNth, hcurid, hcurnext,
      hnextprev, hnextid]
  · intro nextCell idx blk hnotempty hnc hidx hblk hfits
    have hnegfit : ¬(cap < bh + mergeBackBufferPx) := by omega
    constructor
    · intro hstill
      simp only [maybeMergeBackActiveCell, List.getElem?_cons_zero, List.getElem?_cons_succ,
        hcell, hcurid, hcurnext, hasn, hasnN, Bool.false_eq_true, if_false]
      rw [if_neg hneg18]
      simp only [hfindN, hnextprev, hasn, hnc]
      simp only [Option.isSome_some, ne_eq, not_true_eq_false, decide_False, Bool.and_false,
        Bool.false_eq_true, if_false, hnotempty, hidx]
      rw [if_neg hnegfit]
      simp only [moveWholeBlockFromNextToOrigin, getRowAt, List.getElem?_cons_zero,
        List.getElem?_cons_succ, Option.some_bind, hnc, hblk]
      simp only [updateCellAt, updateRowAt, updateNth, List.getElem?_cons_zero,
        List.getElem?_cons_succ, Option.some_bind, hcell]
      simp only [cleanupEmptyLinkedRowInTr]
      rw [findRowLocById_pair false _ _ nextId]
      · simp only [hstill, Bool.not_false, if_true]
        simp [hcurid, hcurnext, hnextprev, hnextid]
      · show (curRow.rmRowId == some nextId) = false
        rw [hcurid]
        exact hbeqCN
      · show (nextRow.rmRowId == some nextId) = true
        rw [hnextid]
        simp
    · intro hgone hnn
      have hnnasn : asStringOrNull nextRow.rmLinkedNext = none := by
        rw [hnn]
        rfl
      simp only [maybeMergeBackActiveCell, List.getElem?_cons_zero, List.getElem?_cons_succ,
        hcell, hcurid, hcurnext, hasn, hasnN, Bool.false_eq_true, if_false]
      rw [if_neg hneg18]
      simp only [hfindN, hnextprev, hasn, hnc]
      simp only [Option.isSome_some, ne_eq, not_true_eq_false, decide_False, Bool.and_false,
        Bool.false_eq_true, if_false, hnotempty, hidx]
      rw [if_neg hnegfit]
      simp only [moveWholeBlockFromNextToOrigin, getRowAt, List.getElem?_cons_zero,
        List.getElem?_cons_succ, Option.some_bind, hnc, hblk]
      simp only [updateCellAt, updateRowAt, updateNth, List.getElem?_cons_zero,
        List.getElem?_cons_succ, Option.some_bind, hcell]
      simp only [cleanupEmptyLinkedRowInTr]
      rw [findRowLocById_pair false _ _ nextId]
      · simp only [hgone, Bool.not_true, Bool.false_eq_true, if_false, hnnasn]
        simp only [deleteRowAt, updateNth, removeNth]
        rw [findRowLocById_single false _ curId]
        · simp [updateRowAt, updateNth, hcurid, hcurnext, hnextprev, hnextid]
        · show (curRow.rmRowId == some curId) = true
          rw [hcurid]
          simp
      · show (curRow.rmRowId == some nextId) = false
        rw [hcurid]
        exact hbeqCN
      · show (nextRow.rmRowId == some nextId) = true
        rw [hnextid]
        simp

/-- The current row of the concrete merge-back scenario. -/
def c6CurRowW : Row :=
  { rmRowId := some "R1"
    rmLinkedPrev := none
    rmLinkedNext := some "R2"
    cells := [{ attrs := normalAttrs "cx", blocks := [emptyParagraph] }] }

/-- The single 40px block sitting in the continuation cell. -/
def c6BlkW : Block :=
  { name := "paragraph", isTextblock := true, inlines := [Inline.text ['h', 'i']] }

/-- The continuation row of the concrete merge-back scenario. -/
def c6NextRowW : Row :=
  { rmRowId := some "R2"
    rmLinkedPrev := some "R1"
    rmLinkedNext := none
    cells := [{ attrs := normalAttrs "cy", blocks := [c6BlkW] }] }

/-- Witness for C6 amended at the spec's own scenario: a 40px block, 60px of
spare capacity, 10px buffer — the block moves whole into the current cell,
the emptied continuation row is deleted and rmLinkedNext is cleared. -/
theorem c6_witness :
    maybeMergeBackActiveCell [{ locked := false, rows := [c6CurRowW, c6NextRowW] }]
        { tableIdx := 0, rowIdx := 0, cellIdx := 0 } false 60 40 =
      some [{ locked := false,
              rows := [{ rmRowId := some "R1"
                         rmLinkedPrev := none
                         rmLinkedNext := none
                         cells := [{ attrs := normalAttrs "cx", blocks := [c6BlkW] }] }] }] :=
  (((c6_merge_back_amended c6CurRowW c6NextRowW
      { attrs := normalAttrs "cx", blocks := [emptyParagraph] }
      0 60 40 "R1" "R2" rfl (by decide) rfl (by decide) rfl rfl (by decide) rfl rfl rfl rfl
      (by decide)).2 { attrs := normalAttrs "cy", blocks := [c6BlkW] } 0 c6BlkW
      (by decide) rfl rfl rfl (by decide)).2 (by decide) rfl).trans (by decide)

/-! ### C7 -/

/-- Row A of the three-row chain: origin row pointing at B. -/
def c7RowA (cellsA : List Cell) : Row :=
  { rmRowId := some "A"
    rmLinkedPrev := none
    rmLinkedNext := some "B"
    cells := cellsA }

/-- Row B of the three-row chain: middle link between A and C. -/
def c7RowB (cellsB : List Cell) : Row :=
  { rmRowId := some "B"
    rmLinkedPrev := some "A"
    rmLinkedNext := some "C"
    cells := cellsB }

/-- Row C of the three-row chain: tail row pointing back at B. -/
def c7RowC (cellsC : List Cell) : Row :=
  { rmRowId := some "C"
    rmLinkedPrev := some "B"
    rmLinkedNext := none
    cells := cellsC }

/-- The pre-edit document: one table holding the chain A to B to C. -/
def c7OldDoc : Doc :=
  [{ locked := false, rows := [c7RowA [demoCellA], c7RowB [demoCellA], c7RowC [demoCellA]] }]

/-- The post-edit document: the region holding B was deleted. -/
def c7NewDoc : Doc :=
  [{ locked := false, rows := [c7RowA [demoCellA], c7RowC [demoCellA]] }]

/-- C7 counterexample: deleting the middle link B of the chain A to B to C
makes the cleanup reconciler discard C (B's downstream chain) but KEEP the
surviving predecessor A, merely clearing its rmLinkedNext — contradicting the
claim that both A and C are removed. -/
theorem c7_counterexample :
    cleanupDeletedRowChains c7OldDoc c7NewDoc =
      some [{ locked := false,
              rows := [{ c7RowA [demoCellA] with rmLinkedNext := none }] }] ∧
    (∃ r ∈ allRows ((cleanupDeletedRowChains c7OldDoc c7NewDoc).getD []),
        r.rmRowId = some "A") ∧
    ∀ r ∈ allRows ((cleanupDeletedRowChains c7OldDoc c7NewDoc).getD []),
        r.rmRowId ≠ some "C" := by
  refine ⟨rfl, ?_, ?_⟩
  · exact ⟨{ c7RowA [demoCellA] with rmLinkedNext := none }, by decide⟩
  · decide

/-- C7 amended: with arbitrary cell contents and lock state, deleting the
document region containing the middle link B of a chain A to B to C causes the
cleanup reconciler to remove C (the downstream remainder of B's chain) while
keeping A with its rmLinkedNext cleared — A is relieved of its dangling
pointer, not deleted. -/
theorem c7_cascade_amended (cellsA cellsB cellsC : List Cell) (lk : Bool) :
    cleanupDeletedRowChains
        [{ locked := lk, rows := [c7RowA cellsA, c7RowB cellsB, c7RowC cellsC] }]
        [{ locked := lk, rows := [c7RowA cellsA, c7RowC cellsC] }] =
      some [{ locked := lk,
              rows := [{ c7RowA cellsA with rmLinkedNext := none }] }] := by
  rfl

/-! ### C2: chain integrity.

The chain state of a row is the triple of its id and link attributes; the
invariant is stated over the flattened, document-ordered list of these
triples, so cell edits are invisible to it. -/

structure RowChain where
  id : Option String
  prev : Option String
  next : Option String
deriving DecidableEq, Repr

def rowChain (r : Row) : RowChain :=
  { id := r.rmRowId, prev := r.rmLinkedPrev, next := r.rmLinkedNext }

def chainsOf (d : Doc) : List RowChain :=
  (allRows d).map rowChain

/-- A raw attribute value is tidy when it is absent or a trimmed, nonempty
string (so the raw and trimmed readings used across part_000 agree). -/
def optTidy : Option String → Bool
  | none => true
  | some s => strTrim s == s && s != ""

/-- A fresh id candidate: trimmed and nonempty. -/
def tidyNonempty (s : String) : Prop := strTrim s = s ∧ s ≠ ""

/-- The id does not occur anywhere in the chain attributes (the model of a
freshly generated uuid). -/
def idFreeL (l : List RowChain) (s : String) : Prop :=
  ∀ c ∈ l, c.id ≠ some s ∧ c.prev ≠ some s ∧ c.next ≠ some s

/-- Chain integrity over a document-ordered list of chain triples: tidy
attributes; linked rows carry ids; ids are unique; linkedNext of A names B
exactly when linkedPrev of B names A (both directions); no row links to
itself; and no linkedNext points backwards — together: the chain pointers
form doubly linked, acyclic, strictly forward lists. -/
def ChainOKL (l : List RowChain) : Prop :=
  (∀ c ∈ l, optTidy c.id = true ∧ optTidy c.prev = true ∧ optTidy c.next = true) ∧
  (∀ c ∈ l, (c.prev ≠ none ∨ c.next ≠ none) → c.id ≠ none) ∧
  List.Pairwise (fun a b => a.id = none ∨ a.id ≠ b.id) l ∧
  (∀ a ∈ l, ∀ b ∈ l, a.next ≠ none → a.next = b.id → b.prev = a.id) ∧
  (∀ a ∈ l, ∀ b ∈ l, b.prev ≠ none → b.prev = a.id → a.next = b.id) ∧
  (∀ c ∈ l, c.next = none ∨ c.next ≠ c.id) ∧
  List.Pairwise (fun a b => b.next = none ∨ b.next ≠ a.id) l

def ChainOK (d : Doc) : Prop := ChainOKL (chainsOf d)

/-- Flattened (document-order) index of a row location. -/
def flatIdx (d : Doc) (p : Nat × Nat) : Nat :=
  ((d.take p.1).map fun tb => tb.rows.length).sum + p.2

theorem getRowAt_flatIdx : ∀ (d : Doc) (t i : Nat) (r : Row),
    getRowAt d (t, i) = some r → (allRows d)[flatIdx d (t, i)]? = some r := by
  intro d
  induction d with
  | nil => intro t i r h; simp [getRowAt] at h
  | cons tb rest ih =>
    intro t i r h
    cases t with
    | zero =>
      simp only [getRowAt, List.getElem?_cons_zero] at h
      have hlen : i < tb.rows.length := (List.getElem?_eq_some.1 h).1
      simp only [allRows, List.flatMap_cons, flatIdx, List.take_zero, List.map_nil,
        List.sum_nil, Nat.zero_add]
      rw [List.getElem?_append_left hlen]
      exact h
    | succ t2 =>
      simp only [getRowAt, List.getElem?_cons_succ] at h
      have hrec : (allRows rest)[flatIdx rest (t2, i)]? = some r := ih t2 i r h
      simp only [allRows, List.flatMap_cons, flatIdx, List.take_succ_cons, List.map_cons,
        List.sum_cons]
      rw [List.getElem?_append_right (by omega)]
      have harith : tb.rows.length + ((rest.take t2).map fun tb => tb.rows.length).sum + i -
          tb.rows.length = ((rest.take t2).map fun tb => tb.rows.length).sum + i := by
        omega
      rw [harith]
      exact hrec

theorem getRowAt_valid {d : Doc} {t i : Nat} {r : Row} (h : getRowAt d (t, i) = some r) :
    ∃ tb, d[t]? = some tb ∧ tb.rows[i]? = some r := by
  unfold getRowAt at h
  cases htb : d[t]? with
  | none => rw [htb] at h; exact absurd h (by simp)
  | some tb =>
    rw [htb] at h
    exact ⟨tb, rfl, h⟩

theorem sum_map_take_le (f : Table → Nat) (d : Doc) {m n : Nat} (h : m ≤ n) :
    ((d.take m).map f).sum ≤ ((d.take n).map f).sum := by
  have he : ((d.take n).map f).take m = (d.take m).map f := by
    rw [List.map_take, List.take_take]
    have hmin : m ⊓ n = m := by omega
    rw [hmin, ← List.map_take]
  calc ((d.take m).map f).sum
      = (((d.take n).map f).take m).sum := by rw [he]
    _ ≤ (((d.take n).map f).take m).sum + (((d.take n).map f).drop m).sum :=
        Nat.le_add_right _ _
    _ = ((d.take n).map f).sum := List.sum_take_add_sum_drop _ _

theorem sum_map_take_succ (f : Table → Nat) {d : Doc} {t : Nat} {tb : Table}
    (h : d[t]? = some tb) :
    ((d.take (t + 1)).map f).sum = ((d.take t).map f).sum + f tb := by
  rw [List.take_succ, h]
  simp

/-- Document order of locations corresponds to order of flattened indices,
for valid locations. -/
theorem locLt_iff_flatIdx {d : Doc} {p q : Nat × Nat} {rp rq : Row}
    (hp : getRowAt d p = some rp) (hq : getRowAt d q = some rq) :
    locLt p q = true ↔ flatIdx d p < flatIdx d q := by
  obtain ⟨t1, i1⟩ := p
  obtain ⟨t2, i2⟩ := q
  obtain ⟨tb1, htb1, hr1⟩ := getRowAt_valid hp
  obtain ⟨tb2, htb2, hr2⟩ := getRowAt_valid hq
  have hi1 : i1 < tb1.rows.length := (List.getElem?_eq_some.1 hr1).1
  have hi2 : i2 < tb2.rows.length := (List.getElem?_eq_some.1 hr2).1
  have key : ∀ (ta tc : Nat) (tba : Table), ta < tc → d[ta]? = some tba →
      ((d.take ta).map fun x => x.rows.length).sum + tba.rows.length ≤
        ((d.take tc).map fun x => x.rows.length).sum := by
    intro ta tc tba hac htba
    have h1 := sum_map_take_succ (fun x => x.rows.length) htba
    have h2 := sum_map_take_le (fun x => x.rows.length) d (show ta + 1 ≤ tc by omega)
    simp only at h1
    omega
  constructor
  · intro hlt
    simp only [locLt, Bool.or_eq_true, decide_eq_true_eq, Bool.and_eq_true,
      beq_iff_eq] at hlt
    rcases hlt with hlt | ⟨heq, hlt⟩
    · have := key t1 t2 tb1 hlt htb1
      simp only [flatIdx]
      omega
    · subst heq
      simp only [flatIdx]
      omega
  · intro hflat
    by_contra hnot
    simp only [locLt, Bool.or_eq_true, decide_eq_true_eq, Bool.and_eq_true,
      beq_iff_eq, not_or, not_and] at hnot
    obtain ⟨hge, himp⟩ := hnot
    rcases Nat.lt_or_ge t2 t1 with hcase | hcase
    · have := key t2 t1 tb2 hcase htb2
      simp only [flatIdx] at hflat
      omega
    · have ht : t1 = t2 := by omega
      subst ht
      have hi : ¬ i1 < i2 := by
        intro hi
        exact absurd (by simpa using hi) (by simpa using himp rfl)
      simp only [flatIdx] at hflat
      omega

theorem mem_rowsIndexed {d : Doc} {t i : Nat} {r : Row} :
    ((t, i), r) ∈ rowsIndexed d ↔ getRowAt d (t, i) = some r := by
  unfold rowsIndexed getRowAt
  simp only [List.mem_flatMap, List.mem_map, List.mem_enum_iff_getElem?]
  constructor
  · rintro ⟨⟨a, tb⟩, htb, ⟨b, row⟩, hrow, heq⟩
    simp only [Prod.mk.injEq] at heq
    obtain ⟨⟨rfl, rfl⟩, rfl⟩ := heq
    simp only at htb hrow
    simp [htb, hrow]
  · intro h
    cases htb : d[t]? with
    | none => rw [htb] at h; exact absurd h (by simp)
    | some tb =>
      rw [htb] at h
      exact ⟨(t, tb), htb, (i, r), h, rfl⟩

/-- Success of findRowLocById yields a valid location whose row carries the
searched raw id. -/
theorem findRowLocById_char {d : Doc} {s : String} {p : Nat × Nat} {r : Row}
    (h : findRowLocById d s = some (p, r)) :
    getRowAt d p = some r ∧ r.rmRowId = some s := by
  unfold findRowLocById at h
  have hmem := List.mem_of_find?_eq_some h
  have hpred := List.find?_some h
  simp only [beq_iff_eq] at hpred
  obtain ⟨t, i⟩ := p
  exact ⟨mem_rowsIndexed.1 hmem, hpred⟩

theorem removeNth_getElem? (l : List α) (n : Nat) (h : n < l.length) (m : Nat) :
    (removeNth l n)[m]? = if m < n then l[m]? else l[m + 1]? := by
  induction l generalizing n m with
  | nil => simp at h
  | cons a l ih =>
    cases n with
    | zero => simp [removeNth]
    | succ n2 =>
      cases m with
      | zero => simp [removeNth]
      | succ m2 =>
        simp only [removeNth, List.getElem?_cons_succ]
        rw [ih n2 (by simpa using h) m2]
        by_cases hm : m2 < n2
        · rw [if_pos hm, if_pos (by omega)]
        · rw [if_neg hm, if_neg (by omega)]

/-! ### C2 stage 2: how chainsOf transforms under the document surgeries. -/

theorem updateNth_eq_set {l : List α} {n : Nat} {a : α} (f : α → α) (h : l[n]? = some a) :
    updateNth l n f = l.set n (f a) := by
  induction l generalizing n with
  | nil => simp at h
  | cons x l ih =>
    cases n with
    | zero =>
      simp only [List.getElem?_cons_zero, Option.some.injEq] at h
      subst h
      simp [updateNth]
    | succ n2 =>
      simp only [List.getElem?_cons_succ] at h
      simp [updateNth, ih h]

theorem set_of_getElem?_eq {l : List α} {n : Nat} {a : α} (h : l[n]? = some a) :
    l.set n a = l := by
  induction l generalizing n with
  | nil => simp at h
  | cons x l ih =>
    cases n with
    | zero =>
      simp only [List.getElem?_cons_zero, Option.some.injEq] at h
      subst h
      simp
    | succ n2 =>
      simp only [List.getElem?_cons_succ] at h
      simp [ih h]

theorem map_removeNth (f : α → β) : ∀ (l : List α) (n : Nat),
    (removeNth l n).map f = removeNth (l.map f) n
  | [], _ => by simp [removeNth]
  | _ :: _, 0 => by simp [removeNth]
  | a :: l, n + 1 => by simp [removeNth, map_removeNth f l n]

theorem removeNth_append_right (a b : List α) (k : Nat) :
    removeNth (a ++ b) (a.length + k) = a ++ removeNth b k := by
  induction a with
  | nil => simp [removeNth]
  | cons x a ih =>
    have hidx : (x :: a).length + k = (a.length + k) + 1 := by
      simp only [List.length_cons]
      omega
    rw [hidx, List.cons_append]
    simp only [removeNth, ih]
    rfl

theorem removeNth_append_left (a b : List α) (n : Nat) (h : n < a.length) :
    removeNth (a ++ b) n = removeNth a n ++ b := by
  induction a generalizing n with
  | nil => simp at h
  | cons x a ih =>
    cases n with
    | zero => simp [removeNth]
    | succ n2 => simp [removeNth, ih n2 (by simpa using h)]

theorem map_insertNth (f : α → β) (n : Nat) (x : α) (l : List α) :
    (insertNth n x l).map f = insertNth n (f x) (l.map f) := by
  simp [insertNth, List.map_take, List.map_drop]

theorem insertNth_append_right (a b : List α) (k : Nat) (x : α) :
    insertNth (a.length + k) x (a ++ b) = a ++ insertNth k x b := by
  simp [insertNth, List.take_append, List.drop_append]

theorem insertNth_append_left (a b : List α) (n : Nat) (x : α) (h : n ≤ a.length) :
    insertNth n x (a ++ b) = insertNth n x a ++ b := by
  simp [insertNth, List.take_append_of_le_length h, List.drop_append_of_le_length h]

theorem allRows_decomp : ∀ (d : Doc) (t : Nat) (tb : Table), d[t]? = some tb →
    allRows d = allRows (d.take t) ++ (tb.rows ++ allRows (d.drop (t + 1))) := by
  intro d
  induction d with
  | nil => intro t tb h; simp at h
  | cons hd rest ih =>
    intro t tb h
    cases t with
    | zero =>
      simp only [List.getElem?_cons_zero, Option.some.injEq] at h
      subst h
      simp [allRows]
    | succ t2 =>
      simp only [List.getElem?_cons_succ] at h
      simp [allRows, List.take_succ_cons, List.drop_succ_cons] at ih ⊢
      rw [ih t2 tb h]

theorem allRows_updateNth : ∀ (d : Doc) (t : Nat) (tb : Table) (f : Table → Table),
    d[t]? = some tb →
    allRows (updateNth d t f) =
      allRows (d.take t) ++ ((f tb).rows ++ allRows (d.drop (t + 1))) := by
  intro d
  induction d with
  | nil => intro t tb f h; simp at h
  | cons hd rest ih =>
    intro t tb f h
    cases t with
    | zero =>
      simp only [List.getElem?_cons_zero, Option.some.injEq] at h
      subst h
      simp [allRows, updateNth]
    | succ t2 =>
      simp only [List.getElem?_cons_succ] at h
      simp only [updateNth, allRows, List.flatMap_cons, List.take_succ_cons,
        List.drop_succ_cons] at ih ⊢
      rw [ih t2 tb f h]
      simp [allRows, List.append_assoc]

theorem length_allRows_take (d : Doc) (t : Nat) :
    (allRows (d.take t)).length = ((d.take t).map fun tb => tb.rows.length).sum := by
  simp only [allRows, List.length_flatMap]
  rfl

theorem flatIdx_eq (d : Doc) (t i : Nat) :
    flatIdx d (t, i) = (allRows (d.take t)).length + i := by
  rw [length_allRows_take]
  rfl

theorem chainsOf_updateRowAt {d : Doc} {t i : Nat} {r : Row} (f : Row → Row)
    (h : getRowAt d (t, i) = some r) :
    chainsOf (updateRowAt d (t, i) f) = (chainsOf d).set (flatIdx d (t, i)) (rowChain (f r)) := by
  obtain ⟨tb, htb, hr⟩ := getRowAt_valid h
  have hi : i < tb.rows.length := (List.getElem?_eq_some.1 hr).1
  have hup := allRows_updateNth d t tb (fun x => { x with rows := updateNth x.rows i f }) htb
  have hdec := allRows_decomp d t tb htb
  have hrow : updateNth tb.rows i f = tb.rows.set i (f r) := updateNth_eq_set f hr
  simp only at hup
  unfold chainsOf updateRowAt
  rw [hup, hdec, hrow]
  rw [List.map_append, List.map_append, List.map_append, List.map_append, List.map_set]
  rw [flatIdx_eq, List.set_append,
    if_neg (by rw [List.length_map]; omega)]
  have harith : (allRows (d.take t)).length + i -
      ((allRows (d.take t)).map rowChain).length = i := by
    rw [List.length_map]
    omega
  rw [harith, List.set_append, if_pos (by rw [List.length_map]; omega)]

theorem chainsOf_updateCellAt {d : Doc} {t i : Nat} {r : Row} (ci : Nat) (f : Cell → Cell)
    (h : getRowAt d (t, i) = some r) :
    chainsOf (updateCellAt d (t, i) ci f) = chainsOf d := by
  unfold updateCellAt
  rw [chainsOf_updateRowAt (fun r => { r with cells := updateNth r.cells ci f }) h]
  have hr : (chainsOf d)[flatIdx d (t, i)]? = some (rowChain r) := by
    unfold chainsOf
    rw [List.getElem?_map, getRowAt_flatIdx d t i r h]
    rfl
  exact set_of_getElem?_eq hr

theorem chainsOf_deleteRowAt {d : Doc} {t i : Nat} {r : Row}
    (h : getRowAt d (t, i) = some r) :
    chainsOf (deleteRowAt d (t, i)) = removeNth (chainsOf d) (flatIdx d (t, i)) := by
  obtain ⟨tb, htb, hr⟩ := getRowAt_valid h
  have hi : i < tb.rows.length := (List.getElem?_eq_some.1 hr).1
  have hup := allRows_updateNth d t tb (fun x => { x with rows := removeNth x.rows i }) htb
  have hdec := allRows_decomp d t tb htb
  simp only at hup
  unfold chainsOf deleteRowAt
  rw [hup, hdec]
  rw [List.map_append, List.map_append, List.map_append, List.map_append]
  rw [flatIdx_eq]
  have hpre : (allRows (d.take t)).length + i =
      ((allRows (d.take t)).map rowChain).length + i := by
    rw [List.length_map]
  rw [hpre, removeNth_append_right]
  rw [removeNth_append_left _ _ i (by rw [List.length_map]; omega)]
  rw [map_removeNth]

theorem chainsOf_insertRowAt {d : Doc} {t i : Nat} {tb : Table} (row : Row)
    (htb : d[t]? = some tb) (hi : i ≤ tb.rows.length) :
    chainsOf (insertRowAt d t i row) =
      insertNth (flatIdx d (t, i)) (rowChain row) (chainsOf d) := by
  have hup := allRows_updateNth d t tb (fun x => { x with rows := insertNth i row x.rows }) htb
  have hdec := allRows_decomp d t tb htb
  simp only at hup
  unfold chainsOf insertRowAt
  rw [hup, hdec]
  rw [List.map_append, List.map_append, List.map_append, List.map_append]
  rw [flatIdx_eq]
  have hpre : (allRows (d.take t)).length + i =
      ((allRows (d.take t)).map rowChain).length + i := by
    rw [List.length_map]
  rw [hpre, insertNth_append_right]
  rw [insertNth_append_left _ _ i _ (by rw [List.length_map]; omega)]
  rw [map_insertNth]

/-! ### C10 -/

/-- C10: a transaction produced by the chain-cleanup reconciler always
carries the rmRowCleanup meta flag, and the appendTransaction step returns
null whenever any triggering transaction carries that flag; hence the cleanup
step never runs on its own output and one edit triggers at most one cleanup
follow-up. -/
theorem c10_cleanup_no_feedback (trs : List TrMeta) (oldDoc newDoc : Doc) :
    (∀ d meta, appendTransactionOverflow trs oldDoc newDoc = some (d, meta) →
      meta.rmRowCleanup = true ∧
        ∀ (oldDoc2 newDoc2 : Doc),
          appendTransactionOverflow [meta] oldDoc2 newDoc2 = none) ∧
    ((∃ t ∈ trs, t.rmRowCleanup = true) →
      appendTransactionOverflow trs oldDoc newDoc = none) := by
  constructor
  · intro d meta h
    unfold appendTransactionOverflow at h
    split at h
    · exact absurd h (by simp)
    · split at h
      · exact absurd h (by simp)
      · cases hcl : cleanupDeletedRowChains oldDoc newDoc with
        | none => rw [hcl] at h; exact absurd h (by simp)
        | some d' =>
          rw [hcl] at h
          simp only [Option.some.injEq, Prod.mk.injEq] at h
          obtain ⟨-, rfl⟩ := h
          refine ⟨rfl, ?_⟩
          intro oldDoc2 newDoc2
          unfold appendTransactionOverflow
          simp
  · intro ⟨t, ht, hflag⟩
    unfold appendTransactionOverflow
    have : trs.any (fun t => t.rmRowCleanup) = true := List.any_eq_true.2 ⟨t, ht, hflag⟩
    simp [this]

/-- Witness for C10: a transaction carrying the rmRowCleanup meta suppresses
the reconciler. -/
theorem c10_witness :
    appendTransactionOverflow [{ rmRowCleanup := true, docChanged := true }] [] [] = none :=
  (c10_cleanup_no_feedback [{ rmRowCleanup := true, docChanged := true }] [] []).2
    ⟨{ rmRowCleanup := true, docChanged := true }, by simp, rfl⟩

end TablePlus
